import Mathlib

/-!
Verification of the Data-Cleansing pipeline (`modules/data_cleaner.py`,
`modules/data_validator.py`) against its natural-language specification.

The tabular data model is a shallow embedding of a pandas `DataFrame` as it
is used by the pipeline: a row count plus a list of named, dtype-tagged
columns of nullable cells.  Missing values (`NaN`/`NaT`) are `Option.none`;
numbers are exact rationals (each float literal that occurs in the sources
is exactly representable, so rational arithmetic mirrors the float
arithmetic on every value the proofs touch); `datetime64` values are
abstract integer timestamps, encoded order-isomorphically to calendar dates
as `yyyy*10000 + mm*100 + dd` so that `datetime(1900,1,1)` is the constant
`19000101`.  `datetime.now()` is a parameter `now : ℤ` of every definition
that reads the clock.
-/

/-- Column dtype as the cleaner distinguishes them: `num` for
`int64`/`float64`, `obj` for `object` (text), `date` for `datetime64[ns]`.
These are the only dtypes the pipeline's branches inspect. -/
inductive Dtype where
  | num : Dtype
  | obj : Dtype
  | date : Dtype
deriving DecidableEq, Repr

/-- A non-null cell value.  `vnum` is a float64 cell, `vint` a Python `int`
object held in an `object` column, `vstr` a Python `str`, `vdate` a
`datetime64` timestamp. -/
inductive Val where
  | vnum : ℚ → Val
  | vint : ℤ → Val
  | vstr : String → Val
  | vdate : ℤ → Val
deriving DecidableEq, Repr

/-- A cell: `none` is pandas missing data (`NaN`/`NaT`). -/
abbrev Cell := Option Val

/-- A named column with its dtype tag and cells in row order. -/
structure Col where
  name : String
  dtype : Dtype
  cells : List Cell
deriving DecidableEq, Repr

/-- A table: a pandas `DataFrame` with an index of length `nrows` and a list
of columns.  `nrows` is carried separately because a frame keeps its index
even when it has no columns. -/
structure Table where
  nrows : ℕ
  cols : List Col
deriving DecidableEq, Repr

/-- Well-formedness: every column has exactly `nrows` cells. -/
def Table.WF (t : Table) : Prop := ∀ c ∈ t.cols, c.cells.length = t.nrows

instance (t : Table) : Decidable t.WF := by
  unfold Table.WF; infer_instance

/-! ### Generic string helpers (ASCII fragment of Python semantics) -/

/-- Python regex word character `\w` (ASCII fragment; the data the pipeline
handles is ASCII where this predicate is consulted). -/
def word_char (ch : Char) : Bool := ch.isAlpha || ch.isDigit || ch == '_'

/-- Python `str.strip()`: drop leading and trailing whitespace (the ASCII
whitespace of `Char.isWhitespace`; Python also strips some rarer Unicode
whitespace, which the data never contains). -/
def py_strip (s : String) : String :=
  ⟨((s.toList.dropWhile Char.isWhitespace).reverse.dropWhile Char.isWhitespace).reverse⟩

/-- Python `str.lower()` (ASCII fragment). -/
def py_lower (s : String) : String := ⟨s.toList.map Char.toLower⟩

/-- Python `str.upper()` (ASCII fragment). -/
def py_upper (s : String) : String := ⟨s.toList.map Char.toUpper⟩

/-- Python slice `s[:n]`. -/
def str_take (s : String) (n : ℕ) : String := ⟨s.toList.take n⟩

/-- Python slice `s[n:]`. -/
def str_drop (s : String) (n : ℕ) : String := ⟨s.toList.drop n⟩

/-- Whether `pat` begins list `l` (character by character). -/
def leads_with : List Char → List Char → Bool
  | [], _ => true
  | _ :: _, [] => false
  | p :: ps, c :: cs => p == c && leads_with ps cs

/-- Python `pat in s` substring test. -/
def str_has_sub (pat s : String) : Bool :=
  (List.range (s.toList.length + 1)).any fun i => leads_with pat.toList (s.toList.drop i)

/-! ### Regex matchers

The sources use `re.match`, which anchors at the start of the string only
(a match may end before the end of the string).  Each fixed pattern of the
sources is compiled by hand into a decidable matcher with the same
semantics. -/

/-- Character class `[A-Za-z0-9._%+-]` (local part of the email pattern). -/
def email_local_char (c : Char) : Bool :=
  c.isAlpha || c.isDigit || c == '.' || c == '_' || c == '%' || c == '+' || c == '-'

/-- Character class `[A-Za-z0-9.-]` (domain part of the email pattern). -/
def email_domain_char (c : Char) : Bool :=
  c.isAlpha || c.isDigit || c == '.' || c == '-'

/-- Character class `[A-Z|a-z]` of the email pattern: letters and the
literal bar character (the source writes the alternation bar inside the
class, where it denotes itself). -/
def email_tld_char (c : Char) : Bool := c.isAlpha || c == '|'

/-- Python `\b` word-boundary assertion at position `e` of `l`, for `e ≥ 1`:
true iff exactly one of the characters around the position is a word
character (end of string counts as non-word). -/
def word_boundary_at (l : List Char) (e : ℕ) : Bool :=
  word_char (l.getD (e - 1) ' ') != (decide (e < l.length) && word_char (l.getD e ' '))

/-- `re.match` for the source email pattern
`\b[A-Za-z0-9._%+-]+@[A-Za-z0-9.-]+\.[A-Z|a-z]{2,}\b`.
The leading `\b` at position 0 holds iff the first character is a word
character; backtracking is the triple existential over the position `i` of
`@`, the position `m` of the dot starting the TLD, and the end `e` of the
TLD run. -/
def email_match (s : String) : Bool :=
  let l := s.toList
  let n := l.length
  (List.range n).any fun i =>
    decide (1 ≤ i) && (l.take i).all email_local_char && word_char (l.getD 0 ' ') &&
      (l.getD i ' ' == '@') &&
      ((List.range n).any fun m =>
        decide (i + 1 < m) && ((l.drop (i + 1)).take (m - i - 1)).all email_domain_char &&
          (l.getD m ' ' == '.') &&
          ((List.range (n + 1)).any fun e =>
            decide (m + 3 ≤ e) && decide (e ≤ n) &&
              ((l.drop (m + 1)).take (e - m - 1)).all email_tld_char &&
              word_boundary_at l e))

/-- `re.match` of phone pattern `\d{3}-\d{3}-\d{4}` (prefix match). -/
def phone_pat_dashed : List Char → Bool
  | a :: b :: c :: '-' :: d :: e :: f :: '-' :: g :: h :: i :: j :: _ =>
      a.isDigit && b.isDigit && c.isDigit && d.isDigit && e.isDigit && f.isDigit &&
        g.isDigit && h.isDigit && i.isDigit && j.isDigit
  | _ => false

/-- `re.match` of phone pattern `\(\d{3}\)\s\d{3}-\d{4}` (prefix match). -/
def phone_pat_paren : List Char → Bool
  | '(' :: a :: b :: c :: ')' :: w :: d :: e :: f :: '-' :: g :: h :: i :: j :: _ =>
      a.isDigit && b.isDigit && c.isDigit && w.isWhitespace && d.isDigit && e.isDigit &&
        f.isDigit && g.isDigit && h.isDigit && i.isDigit && j.isDigit
  | _ => false

/-- `re.match` of phone pattern `\d{10}` (prefix match). -/
def phone_pat_plain (l : List Char) : Bool :=
  decide (10 ≤ l.length) && (l.take 10).all Char.isDigit

/-- Full-anchored pattern `^\d{3}-\d{3}-\d{4}$` of the validator. -/
def phone_full_dashed : List Char → Bool
  | [a, b, c, '-', d, e, f, '-', g, h, i, j] =>
      a.isDigit && b.isDigit && c.isDigit && d.isDigit && e.isDigit && f.isDigit &&
        g.isDigit && h.isDigit && i.isDigit && j.isDigit
  | _ => false

/-- Full-anchored pattern `^\(\d{3}\)\s\d{3}-\d{4}$` of the validator. -/
def phone_full_paren : List Char → Bool
  | ['(', a, b, c, ')', w, d, e, f, '-', g, h, i, j] =>
      a.isDigit && b.isDigit && c.isDigit && w.isWhitespace && d.isDigit && e.isDigit &&
        f.isDigit && g.isDigit && h.isDigit && i.isDigit && j.isDigit
  | _ => false

/-- Full-anchored pattern `^\d{10}$` of the validator. -/
def phone_full_plain (l : List Char) : Bool :=
  decide (l.length = 10) && l.all Char.isDigit

/-- Full-anchored Thai pattern `^0\d{8,9}$` of the validator. -/
def phone_full_thai : List Char → Bool
  | '0' :: rest =>
      rest.all Char.isDigit && (decide (rest.length = 8) || decide (rest.length = 9))
  | _ => false

/-- One of the validator's four full phone patterns matches. -/
def phone_full_match (s : String) : Bool :=
  phone_full_dashed s.toList || phone_full_paren s.toList || phone_full_plain s.toList ||
    phone_full_thai s.toList

/-- Date pattern `\d{4}-\d{2}-\d{2}` (prefix match, for type detection). -/
def date_pat_iso : List Char → Bool
  | a :: b :: c :: d :: '-' :: e :: f :: '-' :: g :: h :: _ =>
      a.isDigit && b.isDigit && c.isDigit && d.isDigit && e.isDigit && f.isDigit &&
        g.isDigit && h.isDigit
  | _ => false

/-- Date pattern `\d{2}/\d{2}/\d{4}` (prefix match, for type detection). -/
def date_pat_slash : List Char → Bool
  | a :: b :: '/' :: c :: d :: '/' :: e :: f :: g :: h :: _ =>
      a.isDigit && b.isDigit && c.isDigit && d.isDigit && e.isDigit && f.isDigit &&
        g.isDigit && h.isDigit
  | _ => false

/-- Date pattern `\d{2}-\d{2}-\d{4}` (prefix match, for type detection). -/
def date_pat_dmy : List Char → Bool
  | a :: b :: '-' :: c :: d :: '-' :: e :: f :: g :: h :: _ =>
      a.isDigit && b.isDigit && c.isDigit && d.isDigit && e.isDigit && f.isDigit &&
        g.isDigit && h.isDigit
  | _ => false

/-! ### Cell rendering (`str(x)` / `astype(str)`) -/

/-- Python `repr` of a float value, as far as the development needs it:
an integral float renders as `"5.0"`; for a non-integral value the exact
rational is rendered (an approximation of the shortest-roundtrip float
repr --- no theorem below depends on this case). -/
def py_float_repr (q : ℚ) : String :=
  if q.den = 1 then toString q.num ++ ".0" else toString q

/-- Python `str` of a non-null cell value. The `vdate` case abstracts the
`Timestamp` rendering by its encoded ordinal (no theorem depends on it). -/
def val_str : Val → String
  | Val.vstr s => s
  | Val.vint n => toString n
  | Val.vnum q => py_float_repr q
  | Val.vdate d => toString d

/-- `astype(str)` on one cell: pandas renders missing data as the literal
string `"nan"`. -/
def py_str : Cell → String
  | none => "nan"
  | some v => val_str v

/-! ### Row access and row selection

The row-filtering stages (`dropna`, `drop_duplicates`) are boolean-mask
selections; a selection is modelled by the list of kept row indices (in
increasing order), applied to every column. -/

/-- The cell of column `c` at row `i` (out-of-range reads as null; a
well-formed table never reads out of range). -/
def cell_at (c : Col) (i : ℕ) : Cell := c.cells.getD i none

/-- Row `i` of the table, as the list of its cells across columns. -/
def row_at (t : Table) (i : ℕ) : List Cell := t.cols.map fun c => cell_at c i

/-- All rows of the table in order. -/
def table_rows (t : Table) : List (List Cell) := (List.range t.nrows).map (row_at t)

/-- Keep exactly the rows listed in `idxs` of one column, in that order. -/
def select_col (idxs : List ℕ) (c : Col) : Col :=
  { c with cells := idxs.map fun i => cell_at c i }

/-- Keep exactly the rows listed in `idxs`, in that order. -/
def reindex (t : Table) (idxs : List ℕ) : Table :=
  ⟨idxs.length, t.cols.map (select_col idxs)⟩

/-- Row `i` has at least one non-null cell (`count > 0` in pandas
`dropna`). -/
def row_has_value (t : Table) (i : ℕ) : Bool := t.cols.any fun c => (cell_at c i).isSome

/-- `_remove_empty_rows`: `data.dropna(how='all')` --- drop every row whose
non-null count is zero (with no columns every row is dropped, as pandas
does). -/
def remove_empty_rows (t : Table) : Table :=
  reindex t ((List.range t.nrows).filter (row_has_value t))

/-- The keep-policy of `drop_duplicates` (`keep='first'` / `keep='last'`). -/
inductive KeepPolicy where
  | first : KeepPolicy
  | last : KeepPolicy
deriving DecidableEq

/-- Indices of rows kept by `drop_duplicates` under the policy: under
`first` a row survives iff no earlier row equals it, under `last` iff no
later row equals it.  Cell comparison is structural, so null compares equal
to null, as in pandas `duplicated`. -/
def keep_idx (t : Table) : KeepPolicy → List ℕ
  | KeepPolicy.first =>
      (List.range t.nrows).filter fun i =>
        decide (∀ j ∈ List.range i, row_at t j ≠ row_at t i)
  | KeepPolicy.last =>
      (List.range t.nrows).filter fun i =>
        decide (∀ j ∈ List.range t.nrows, i < j → row_at t j ≠ row_at t i)

/-- pandas `DataFrame.drop_duplicates(keep=kp)` over all columns.  A frame
that is empty (no columns) is returned unchanged (the library's
`self.empty` early return). -/
def drop_duplicates (kp : KeepPolicy) (t : Table) : Table :=
  if t.cols.isEmpty then t else reindex t (keep_idx t kp)

/-- `_remove_duplicates`: `data.drop_duplicates()` with the default
`keep='first'` over all columns. -/
def remove_duplicates (t : Table) : Table := drop_duplicates KeepPolicy.first t

/-! ### `_handle_missing_data` -/

/-- Missing-value count of a column (`data[column].isnull().sum()`). -/
def col_missing_count (c : Col) : ℕ := c.cells.countP fun x => x.isNone

/-- The non-null values of a column, in row order (`series.dropna()`). -/
def non_null_vals (c : Col) : List Val := c.cells.filterMap id

/-- The numeric payload of a cell, if it is a float64 cell. -/
def get_num : Cell → Option ℚ
  | some (Val.vnum q) => some q
  | _ => none

/-- The timestamp payload of a cell, if it is a datetime cell. -/
def get_date : Cell → Option ℤ
  | some (Val.vdate d) => some d
  | _ => none

/-- The non-null float values of a column. -/
def num_vals (c : Col) : List ℚ := c.cells.filterMap get_num

/-- The non-null timestamps of a column. -/
def date_vals (c : Col) : List ℤ := c.cells.filterMap get_date

/-- `series.mean()`: the mean of the non-null values; `none` models the
`NaN` a mean of no values produces. -/
def mean_q (qs : List ℚ) : Option ℚ :=
  if qs.isEmpty then none else some (qs.sum / (qs.length : ℚ))

/-- `series.mode().iloc[0]`: a most frequent value (ties broken by first
occurrence; pandas sorts ties when the values are sortable, but no theorem
below depends on which most-frequent value is chosen), `none` when there
are no values. -/
def mode_val (vs : List Val) : Option Val :=
  vs.foldl
    (fun best v =>
      match best with
      | none => some v
      | some b => if vs.count v > vs.count b then some v else best)
    none

/-- `series.median()` of timestamps: middle of the sorted values, averaging
the two middles for an even count (integer division abstracts the nanosecond
rounding; no theorem depends on the value). `none` models `NaT` for an
empty column. -/
def median_date (ds : List ℤ) : Option ℤ :=
  let s := List.insertionSort (· ≤ ·) ds
  if s.length = 0 then none
  else if s.length % 2 = 1 then some (s.getD (s.length / 2) 0)
  else some ((s.getD (s.length / 2 - 1) 0 + s.getD (s.length / 2) 0) / 2)

/-- `series.fillna(fv)`: every null cell becomes `fv`. -/
def fill_with (fv : Val) (cells : List Cell) : List Cell :=
  cells.map fun x => some (x.getD fv)

/-- One column of `_handle_missing_data`: nothing happens when the column
has no missing values; otherwise the fill value is the mean (float
columns), the mode or `'Unknown'` (object columns), or the median
(datetime columns).  When the mean/median is itself missing (a column with
no usable values) `fillna` fills with `NaN`/`NaT`, leaving the column
unchanged. -/
def handle_missing_col (c : Col) : Col :=
  if col_missing_count c = 0 then c
  else
    match c.dtype with
    | Dtype.num =>
        match mean_q (num_vals c) with
        | none => c
        | some m => { c with cells := fill_with (Val.vnum m) c.cells }
    | Dtype.obj =>
        let fv := (mode_val (non_null_vals c)).getD (Val.vstr "Unknown")
        { c with cells := fill_with fv c.cells }
    | Dtype.date =>
        match median_date (date_vals c) with
        | none => c
        | some m => { c with cells := fill_with (Val.vdate m) c.cells }

/-- `_handle_missing_data`: the per-column fill applied to every column
(the code's `missing_summary` is computed before the loop, but each
column's fill depends only on that column, so the sequential in-place loop
equals the simultaneous map). -/
def handle_missing_data (t : Table) : Table :=
  { t with cols := t.cols.map handle_missing_col }

/-! ### `_standardize_formats` -/

/-- `_is_email_column` on the already-stringified column: some of the
first 10 values matches the email pattern (after `strip`). -/
def is_email_column (cells : List String) : Bool :=
  (cells.take 10).any fun s => email_match (py_strip s)

/-- `_is_phone_column` on the already-stringified column: some of the
first 10 values matches one of the three phone patterns (after `strip`). -/
def is_phone_column (cells : List String) : Bool :=
  (cells.take 10).any fun s =>
    phone_pat_dashed (py_strip s).toList || phone_pat_paren (py_strip s).toList ||
      phone_pat_plain (py_strip s).toList

/-- The digit characters of `s`, in order (`re.sub` of `[^\d]` with `''`). -/
def digits_of (s : String) : String := ⟨s.toList.filter Char.isDigit⟩

/-- `_standardize_phones` on one value: strip the non-digits; a 10-digit
result is re-rendered `NNN-NNN-NNNN` (`x[:3]-x[3:6]-x[6:]`), anything else
is left as the digit string. -/
def standardize_phone (s : String) : String :=
  let d := digits_of s
  if d.length = 10 then
    str_take d 3 ++ "-" ++ str_take (str_drop d 3) 3 ++ "-" ++ str_drop d 6
  else d

/-- `_standardize_emails` on one value: `str.lower().str.strip()`. -/
def standardize_email (s : String) : String := py_strip (py_lower s)

/-- The stringified-and-stripped cells of a column
(`astype(str).str.strip()`), the state on which the email/phone detection
runs. -/
def stripped_cells (c : Col) : List String :=
  c.cells.map fun x => py_strip (py_str x)

/-- `_standardize_formats` on one column: object columns are stringified
and stripped, then the email branch, else the phone branch, else left as
the stripped strings.  Non-object columns are untouched. -/
def standardize_col (c : Col) : Col :=
  if c.dtype = Dtype.obj then
    let stripped := stripped_cells c
    if is_email_column stripped then
      { c with cells := stripped.map fun s => some (Val.vstr (standardize_email s)) }
    else if is_phone_column stripped then
      { c with cells := stripped.map fun s => some (Val.vstr (standardize_phone s)) }
    else
      { c with cells := stripped.map fun s => some (Val.vstr s) }
  else c

/-- `_standardize_formats` over the table. -/
def standardize_formats (t : Table) : Table :=
  { t with cols := t.cols.map standardize_col }

/-! ### `_detect_outliers` -/

/-- pandas `Series.quantile(p)` with the default linear interpolation, over
the non-null values: at fractional position `p * (n-1)` of the sorted
values.  `none` models the `NaN` quantile of an empty series. -/
def quantile_q (l : List ℚ) (p : ℚ) : Option ℚ :=
  let s := List.insertionSort (· ≤ ·) l
  if s.isEmpty then none
  else
    let h : ℚ := p * ((s.length : ℚ) - 1)
    let lo := (⌊h⌋ : ℤ).toNat
    let hi := (⌈h⌉ : ℤ).toNat
    some (s.getD lo 0 + (h - (⌊h⌋ : ℚ)) * (s.getD hi 0 - s.getD lo 0))

/-- The IQR bounds `[Q1 - 1.5*IQR, Q3 + 1.5*IQR]` the stage computes;
`none` when the column has no numeric values (the bounds are then `NaN`
and no comparison holds). -/
def iqr_bounds (qs : List ℚ) : Option (ℚ × ℚ) :=
  match quantile_q qs (1/4), quantile_q qs (3/4) with
  | some q1, some q3 => some (q1 - (3/2) * (q3 - q1), q3 + (3/2) * (q3 - q1))
  | _, _ => none

/-- The row indices `_detect_outliers` selects for a column:
`data[(data[column] < lower) | (data[column] > upper)]` --- null cells
compare false and are never selected. -/
def outlier_row_idx (c : Col) : List ℕ :=
  match iqr_bounds (num_vals c) with
  | none => []
  | some (lb, ub) =>
      c.cells.enum.filterMap fun p =>
        match get_num p.2 with
        | some x => if x < lb ∨ ub < x then some p.1 else none
        | none => none

/-- `_detect_outliers` returns its input unchanged: outliers are only
counted into the log (`outlier_row_idx` above), never removed. -/
def detect_outliers_stage (t : Table) : Table := t

/-! ### `_validate_consistency` (cleaning stage) and the validator's
date-consistency check -/

/-- `datetime(1900, 1, 1)` in the encoded timestamp order. -/
def epoch1900 : ℤ := 19000101

/-- The kind of a logged data issue. -/
inductive IssueKind where
  | future_date : IssueKind
  | old_date : IssueKind
  | negative_value : IssueKind
  | mixed_case : IssueKind
  | bad_age : IssueKind
  | bad_percent : IssueKind
  | bad_email : IssueKind
  | bad_phone : IssueKind
deriving DecidableEq, Repr

/-- A logged issue: column name, kind, and the affected-value count the
message reports. -/
structure Issue where
  col : String
  kind : IssueKind
  cnt : ℕ
deriving DecidableEq, Repr

/-- Number of datetime cells strictly greater than `now`
(`data[data[column] > datetime.now()]`). -/
def future_count (now : ℤ) (c : Col) : ℕ :=
  c.cells.countP fun x =>
    match x with
    | some (Val.vdate d) => decide (now < d)
    | _ => false

/-- Number of datetime cells strictly before 1900-01-01. -/
def old_count (c : Col) : ℕ :=
  c.cells.countP fun x =>
    match x with
    | some (Val.vdate d) => decide (d < epoch1900)
    | _ => false

/-- Number of negative numeric cells (`data[data[column] < 0]`). -/
def negative_count (c : Col) : ℕ :=
  c.cells.countP fun x =>
    match get_num x with
    | some q => decide (q < 0)
    | none => false

/-- The positivity keywords of `_validate_consistency`. -/
def positive_keywords : List String := ["age", "price", "amount", "quantity", "count"]

/-- `any(keyword in col.lower() for keyword in kws)`. -/
def name_has_keyword (kws : List String) (name : String) : Bool :=
  kws.any fun k => str_has_sub k (py_lower name)

/-- The issues `_validate_consistency` logs: one future-date issue per
datetime column containing future dates, then one negative-value issue per
numeric column whose name contains a positivity keyword and which contains
negative values.  This stage has no rule about dates before 1900. -/
def validate_consistency_issues (now : ℤ) (t : Table) : List Issue :=
  ((t.cols.filter fun c => c.dtype = Dtype.date).filterMap fun c =>
      if 0 < future_count now c then
        some ⟨c.name, IssueKind.future_date, future_count now c⟩
      else none)
    ++ ((t.cols.filter fun c =>
          name_has_keyword positive_keywords c.name && c.dtype = Dtype.num).filterMap
        fun c =>
          if 0 < negative_count c then
            some ⟨c.name, IssueKind.negative_value, negative_count c⟩
          else none)

/-- `_validate_consistency` returns its input unchanged: the check is
informational only. -/
def validate_consistency_stage (t : Table) : Table := t

/-- The validator's `_check_date_consistency` on one datetime column: a
future-date issue when the column has values after `now`, then an old-date
issue when it has values before 1900-01-01. -/
def check_date_issues (now : ℤ) (c : Col) : List Issue :=
  (if 0 < future_count now c then [⟨c.name, IssueKind.future_date, future_count now c⟩]
   else [])
    ++ (if 0 < old_count c then [⟨c.name, IssueKind.old_date, old_count c⟩] else [])

/-! ### `clean_data`: the cleaning pipeline -/

/-- `clean_data`: the six cleaning stages in their fixed order.  The
outlier and consistency stages return the table unchanged, so the data flow
is empty-row removal, then missing-data resolution, then deduplication,
then format standardization. -/
def clean_data (t : Table) : Table :=
  validate_consistency_stage (detect_outliers_stage (standardize_formats
    (remove_duplicates (handle_missing_data (remove_empty_rows t)))))

/-- One log record of the cleaning loop: a success line or a failure line
naming the stage. -/
inductive ActionRec where
  | success : String → ActionRec
  | failure : String → String → ActionRec
deriving DecidableEq, Repr

/-- One iteration of the `for step_name, step_function in cleaning_steps`
loop: on success the table is rebound to the stage's result and a success
record is appended; on an exception the rebinding does not happen and a
failure record is appended. -/
def run_step (acc : Table × List ActionRec) (st : String × (Table → Except String Table)) :
    Table × List ActionRec :=
  match st.2 acc.1 with
  | Except.ok t2 => (t2, acc.2 ++ [ActionRec.success st.1])
  | Except.error e => (acc.1, acc.2 ++ [ActionRec.failure st.1 e])

/-- The cleaning loop of `clean_data` over an arbitrary stage list,
threading the table and the append-only `cleaning_log`. -/
def run_clean_steps (steps : List (String × (Table → Except String Table)))
    (t : Table) (log : List ActionRec) : Table × List ActionRec :=
  steps.foldl run_step (t, log)

/-- The concrete `cleaning_steps` list of `clean_data`; the stages as
embedded are total, so each is wrapped as an always-`ok` step. -/
def cleaning_steps : List (String × (Table → Except String Table)) :=
  [("remove_empty_rows", fun t => Except.ok (remove_empty_rows t)),
   ("handle_missing_data", fun t => Except.ok (handle_missing_data t)),
   ("remove_duplicates", fun t => Except.ok (remove_duplicates t)),
   ("standardize_formats", fun t => Except.ok (standardize_formats t)),
   ("detect_outliers", fun t => Except.ok (detect_outliers_stage t)),
   ("validate_consistency", fun t => Except.ok (validate_consistency_stage t))]

/-! ### `preprocess`: type detection and column-name cleaning -/

/-- Parse `YYYY-MM-DD` into the encoded ordinal `yyyy*10000 + mm*100 + dd`.
This models `pd.to_datetime(..., errors='coerce')` on the date shape the
type detector recognizes; other accepted shapes of the library parser are
coerced to null here (an under-approximation --- no theorem depends on the
parser beyond nullability and order). -/
def parse_date (s : String) : Option ℤ :=
  match s.toList with
  | [a, b, c, d, '-', e, f, '-', g, h] =>
      if a.isDigit && b.isDigit && c.isDigit && d.isDigit && e.isDigit && f.isDigit &&
          g.isDigit && h.isDigit then
        some ((((a.toNat - 48) * 1000 + (b.toNat - 48) * 100 + (c.toNat - 48) * 10 +
            (d.toNat - 48)) * 10000 : ℤ) +
          ((e.toNat - 48) * 10 + (f.toNat - 48)) * 100 +
          ((g.toNat - 48) * 10 + (h.toNat - 48)))
      else none
  | _ => none

/-- Parse a decimal numeral (optional sign, digits, optional fraction) into
an exact rational.  Models `pd.to_numeric` on the shapes the data uses;
other shapes (scientific notation and the like) coerce to null. -/
def parse_num (s : String) : Option ℚ :=
  let core (l : List Char) : Option ℚ :=
    match l.span Char.isDigit with
    | (ds, rest) =>
        if ds.isEmpty then none
        else
          let ip : ℚ := (ds.foldl (fun acc c => acc * 10 + (c.toNat - 48)) 0 : ℕ)
          match rest with
          | [] => some ip
          | '.' :: fs =>
              if fs.all Char.isDigit then
                some (ip + (fs.foldl (fun acc c => acc * 10 + (c.toNat - 48)) 0 : ℕ) /
                  ((10 : ℚ) ^ fs.length))
              else none
          | _ => none
  match s.toList with
  | '-' :: l => (core l).map Neg.neg
  | l => core l

/-- `_is_date_column`: an object column some of whose first 10 non-null
values is a string matching one of the three date patterns (after
`strip`). -/
def is_date_column (c : Col) : Bool :=
  c.dtype = Dtype.obj &&
    ((non_null_vals c).take 10).any fun v =>
      match v with
      | Val.vstr s =>
          date_pat_iso (py_strip s).toList || date_pat_slash (py_strip s).toList ||
            date_pat_dmy (py_strip s).toList
      | _ => false

/-- `pd.to_datetime(cell, errors='coerce')`. -/
def to_datetime_cell : Cell → Cell
  | none => none
  | some (Val.vstr s) => (parse_date (py_strip s)).map Val.vdate
  | some (Val.vdate d) => some (Val.vdate d)
  | some _ => none

/-- `pd.to_numeric(cell, errors='coerce')`. -/
def to_numeric_cell : Cell → Cell
  | none => none
  | some (Val.vstr s) => (parse_num s).map Val.vnum
  | some (Val.vint n) => some (Val.vnum (n : ℚ))
  | some (Val.vnum q) => some (Val.vnum q)
  | some (Val.vdate _) => none

/-- `_is_numeric_column`: an object column whose first 10 non-null values
all coerce to numbers without error (vacuously true for a column with no
values, as `pd.to_numeric` of an empty sample raises nothing). -/
def is_numeric_column (c : Col) : Bool :=
  c.dtype = Dtype.obj &&
    ((non_null_vals c).take 10).all fun v =>
      match v with
      | Val.vstr s => (parse_num s).isSome
      | Val.vint _ => true
      | Val.vnum _ => true
      | Val.vdate _ => false

/-- `_detect_and_convert_types`: date detection first, then numeric
detection, each coercing the full column and retagging its dtype. -/
def detect_and_convert_types (t : Table) : Table :=
  { t with
    cols := t.cols.map fun c =>
      if is_date_column c then
        { c with dtype := Dtype.date, cells := c.cells.map to_datetime_cell }
      else if is_numeric_column c then
        { c with dtype := Dtype.num, cells := c.cells.map to_numeric_cell }
      else c }

/-- `_clean_column_names` on one name: strip, spaces to underscores, every
non-word character to underscore, lower-case (ASCII fragment of `\w` and
`lower`). -/
def normalize_col_name (s : String) : String :=
  py_lower
    ⟨((py_strip s).toList.map fun ch => if ch == ' ' then '_' else ch).map fun ch =>
      if word_char ch then ch else '_'⟩

/-- `_clean_column_names` over the table. -/
def clean_column_names (t : Table) : Table :=
  { t with cols := t.cols.map fun c => { c with name := normalize_col_name c.name } }

/-! ### The pipeline's copy discipline

`preprocess` and `clean_data` both start with `data.copy()` and all stages
receive and return only the working copy.  The state below makes the
aliasing explicit: `caller` is the frame the caller passed in, `working`
the pipeline's deep copy; entering the pipeline initializes `working` with
the caller's value, and a stage rewrites `working` only. -/
structure PipeState where
  caller : Table
  working : Table
deriving DecidableEq

/-- Pipeline entry: `processed_data = data.copy()` --- the working copy
starts as the caller's value and is a distinct frame from then on. -/
def pipeline_entry (t : Table) : PipeState := ⟨t, t⟩

/-- Running one stage: the stage function reads and rewrites the working
copy; no stage receives the caller's frame. -/
def apply_stage (f : Table → Table) (s : PipeState) : PipeState :=
  ⟨s.caller, f s.working⟩

/-- The stage functions of `preprocess` followed by those of `clean_data`,
in execution order. -/
def pipeline_stage_list : List (Table → Table) :=
  [detect_and_convert_types, clean_column_names, remove_empty_rows, handle_missing_data,
   remove_duplicates, standardize_formats, detect_outliers_stage, validate_consistency_stage]

/-- Fold a stage list over the pipeline state. -/
def run_stages (fs : List (Table → Table)) (s : PipeState) : PipeState :=
  fs.foldl (fun s f => apply_stage f s) s

/-- The full pipeline on a caller's table: `preprocess` then `clean_data`,
all stages operating on the working copy. -/
def run_full_pipeline (t : Table) : PipeState :=
  run_stages pipeline_stage_list (pipeline_entry t)

/-! ### `DataValidator._assess_data_quality`

Only the parts feeding `_calculate_quality_score` are embedded: the
completeness percentage, the uniqueness score, the consistency issues and
score, and the accuracy issues and score.  (`_assess_validity` and the
basic-info block are computed by the source but do not enter the overall
score.)  Score arithmetic is exact rational arithmetic; the float literals
`0.1`, `0.3`, `0.25`, `0.2`, `100` of the source are represented by the
rationals they denote. -/

/-- `data.isnull().sum().sum()`. -/
def missing_cells (t : Table) : ℕ := (t.cols.map col_missing_count).sum

/-- `data.shape[0] * data.shape[1]`. -/
def total_cells (t : Table) : ℕ := t.nrows * t.cols.length

/-- `missing_percentage`: percent of missing cells, 0 for a table with no
cells. -/
def missing_percentage (t : Table) : ℚ :=
  if 0 < total_cells t then (missing_cells t : ℚ) / (total_cells t : ℚ) * 100 else 0

/-- `data.duplicated().sum()`: rows equal to some earlier row.  An empty
frame (no rows or no columns) yields an empty boolean series, hence 0. -/
def duplicate_rows (t : Table) : ℕ :=
  if t.cols.isEmpty then 0
  else (List.range t.nrows).countP fun i => decide (∃ j ∈ List.range i, row_at t j = row_at t i)

/-- `uniqueness_score`: percent of non-duplicate rows, 100 for a table with
no rows. -/
def uniqueness_score (t : Table) : ℚ :=
  if 0 < t.nrows then ((t.nrows : ℚ) - (duplicate_rows t : ℚ)) / (t.nrows : ℚ) * 100 else 100

/-- `_check_pattern_consistency` count: non-null strings that differ from
both their upper-case and their lower-case form and contain a letter. -/
def mixed_case_count (c : Col) : ℕ :=
  c.cells.countP fun x =>
    match x with
    | some (Val.vstr s) =>
        decide (s ≠ py_upper s) && decide (s ≠ py_lower s) && s.toList.any Char.isAlpha
    | _ => false

/-- `_check_reasonable_ranges` age count: values below 0 or above 150. -/
def bad_age_count (c : Col) : ℕ :=
  c.cells.countP fun x =>
    match get_num x with
    | some q => decide (q < 0 ∨ 150 < q)
    | none => false

/-- `_check_reasonable_ranges` percent count: values below 0 or above
100. -/
def bad_percent_count (c : Col) : ℕ :=
  c.cells.countP fun x =>
    match get_num x with
    | some q => decide (q < 0 ∨ 100 < q)
    | none => false

/-- `_check_reasonable_ranges` on one numeric column: an age issue when the
name contains `age`/`อายุ` and out-of-range ages exist, then a percent
issue when the name contains `percent`/`เปอร์เซ็นต์` and out-of-range
percentages exist. -/
def range_issues (c : Col) : List Issue :=
  (if (str_has_sub "age" (py_lower c.name) || str_has_sub "อายุ" (py_lower c.name)) &&
      decide (0 < bad_age_count c) then
    [⟨c.name, IssueKind.bad_age, bad_age_count c⟩]
  else [])
    ++ (if (str_has_sub "percent" (py_lower c.name) ||
            str_has_sub "เปอร์เซ็นต์" (py_lower c.name)) &&
          decide (0 < bad_percent_count c) then
      [⟨c.name, IssueKind.bad_percent, bad_percent_count c⟩]
    else [])

/-- `_assess_consistency` issue list: pattern issues of the object columns,
then range issues of the numeric columns, then date issues of the datetime
columns. -/
def assess_consistency_issues (now : ℤ) (t : Table) : List Issue :=
  ((t.cols.filter fun c => c.dtype = Dtype.obj).filterMap fun c =>
      if (t.nrows : ℚ) * (1/10) < (mixed_case_count c : ℚ) then
        some ⟨c.name, IssueKind.mixed_case, mixed_case_count c⟩
      else none)
    ++ ((t.cols.filter fun c => c.dtype = Dtype.num).flatMap range_issues)
    ++ ((t.cols.filter fun c => c.dtype = Dtype.date).flatMap (check_date_issues now))

/-- `consistency_score = max(0, 100 - issue_count * 10)`. -/
def consistency_score (now : ℤ) (t : Table) : ℚ :=
  max 0 (100 - ((assess_consistency_issues now t).length : ℚ) * 10)

/-- `series.count()`: number of non-null cells. -/
def non_null_count (c : Col) : ℕ := c.cells.countP fun x => x.isSome

/-- `_validate_email_format` valid count:
`series.astype(str).str.match(email_pattern).sum()` --- every cell is
stringified (nulls become `'nan'`) and prefix-matched, without stripping. -/
def valid_email_count (c : Col) : ℕ := c.cells.countP fun x => email_match (py_str x)

/-- `_validate_email_format` invalid count: non-null count minus matches
(never negative: the string `'nan'` of a null cell cannot match). -/
def invalid_email_count (c : Col) : ℕ := non_null_count c - valid_email_count c

/-- `_validate_phone_format` valid count: non-null values whose stripped
string form matches one of the four anchored phone patterns. -/
def valid_phone_count (c : Col) : ℕ :=
  (non_null_vals c).countP fun v => phone_full_match (py_strip (val_str v))

/-- `_validate_phone_format` invalid count. -/
def invalid_phone_count (c : Col) : ℕ := non_null_count c - valid_phone_count c

/-- `'email' in col.lower() or 'อีเมล' in col.lower()`. -/
def email_named (c : Col) : Bool :=
  str_has_sub "email" (py_lower c.name) || str_has_sub "อีเมล" (py_lower c.name)

/-- The phone-column name keywords of `_assess_accuracy`. -/
def phone_name_keywords : List String := ["phone", "tel", "mobile", "โทรศัพท์", "เบอร์"]

/-- `_assess_accuracy` issue list: one issue per email-named column with
invalid values, then one per phone-named column with invalid values. -/
def assess_accuracy_issues (t : Table) : List Issue :=
  ((t.cols.filter email_named).filterMap fun c =>
      if 0 < invalid_email_count c then
        some ⟨c.name, IssueKind.bad_email, invalid_email_count c⟩
      else none)
    ++ ((t.cols.filter fun c => name_has_keyword phone_name_keywords c.name).filterMap
      fun c =>
        if 0 < invalid_phone_count c then
          some ⟨c.name, IssueKind.bad_phone, invalid_phone_count c⟩
        else none)

/-- `accuracy_score = max(0, 100 - issue_count * 15)`. -/
def accuracy_score (t : Table) : ℚ :=
  max 0 (100 - ((assess_accuracy_issues t).length : ℚ) * 15)

/-- `completeness_score = 100 - missing_percentage`. -/
def completeness_score (t : Table) : ℚ := 100 - missing_percentage t

/-- The weighted sum inside `_calculate_quality_score`, before rounding:
completeness*0.30 + uniqueness*0.25 + consistency*0.25 + accuracy*0.20. -/
def overall_raw (now : ℤ) (t : Table) : ℚ :=
  completeness_score t * (3/10) + uniqueness_score t * (1/4) +
    consistency_score now t * (1/4) + accuracy_score t * (1/5)

/-- Python `round(x, 1)`: one decimal place.  Modelled as round-half-up on
exact rationals (Python rounds the nearest float half-to-even; the two
agree except on exact two-decimal ties, where no theorem below sits). -/
def round1 (x : ℚ) : ℚ := ((⌊x * 10 + 1/2⌋ : ℤ) : ℚ) / 10

/-- `_calculate_quality_score`: the rounded weighted sum, which
`_assess_data_quality` stores as `overall_score`. -/
def overall_score (now : ℤ) (t : Table) : ℚ := round1 (overall_raw now t)

/-! ### The configurable outlier detector (modelled from the spec)

`src/tests/test_data_cleaner.py` drives `DataCleaner.detect_outliers(data,
column, method='iqr'|'zscore', threshold=...)`, but that method's
implementation is not under `src/` (the in-src pipeline stage
`_detect_outliers` applies only the IQR rule).  The missing method is
modelled from the spec, §4.6. -/

/-- The outlier rule selected by configuration (`method=` argument;
spec §4.6: two interchangeable rules). -/
inductive OutlierMethod where
  | iqr : OutlierMethod
  | zscore : OutlierMethod
deriving DecidableEq

/-- `series.mean()` over a plain value list, 0 for no values (this case is
never consulted: the z-score rule bails out first). -/
def list_mean (qs : List ℚ) : ℚ := qs.sum / (qs.length : ℚ)

/-- Sample variance (`ddof=1`, the pandas `std` convention), `none` when
fewer than two values make the standard deviation undefined. -/
def sample_var (qs : List ℚ) : Option ℚ :=
  if qs.length < 2 then none
  else some ((qs.map fun x => (x - list_mean qs) ^ 2).sum / ((qs.length : ℚ) - 1))

/-- Modelled from the spec: the Z-score rule of `detect_outliers` --- a
value is flagged iff `|value - mean| / stddev > threshold`, and no values
are flagged when the standard deviation is 0 or undefined.  Stated here in
the equivalent squared form `(value - mean)^2 > threshold^2 * variance`
(for a nonnegative threshold), which avoids the irrational square root;
the equivalence with the spec's formula over ℝ is proved below. -/
def zscore_row_idx (thr : ℚ) (cells : List Cell) : List ℕ :=
  match sample_var (cells.filterMap get_num) with
  | none => []
  | some v =>
      if v = 0 then []
      else
        let m := list_mean (cells.filterMap get_num)
        cells.enum.filterMap fun p =>
          match get_num p.2 with
          | some x => if thr ^ 2 * v < (x - m) ^ 2 then some p.1 else none
          | none => none

/-- Modelled from the spec: `detect_outliers(data, column, method,
threshold)` --- the IQR rule or the Z-score rule on the column's cells,
selected by `method` (default threshold 3.0), returning the flagged row
indices. -/
def detect_outliers_method (m : OutlierMethod) (thr : ℚ) (c : Col) : List ℕ :=
  match m with
  | OutlierMethod.iqr => outlier_row_idx c
  | OutlierMethod.zscore => zscore_row_idx thr c.cells

/-! ### Well-typedness and the concrete example tables used by the
theorems below -/

/-- Whether a value is of the kind a dtype's cells hold: float cells in
numeric columns, strings or Python ints in object columns, timestamps in
datetime columns. -/
def cell_fits : Dtype → Val → Bool
  | Dtype.num, Val.vnum _ => true
  | Dtype.obj, Val.vstr _ => true
  | Dtype.obj, Val.vint _ => true
  | Dtype.date, Val.vdate _ => true
  | _, _ => false

/-- A well-typed column: every non-null value fits the column's dtype (a
pandas column of a given dtype cannot hold values of another kind). -/
def col_wt (c : Col) : Bool := (non_null_vals c).all (cell_fits c.dtype)

/-- An entirely-null float64 column: `mean()` is `NaN`, so
`_handle_missing_data` leaves its null in place. -/
def c1_table : Table := ⟨1, [⟨"a", Dtype.num, [none]⟩]⟩

/-- A float64 column with a value and a null. -/
def c1_wit_table : Table :=
  ⟨2, [⟨"a", Dtype.num, [some (Val.vnum 1), none]⟩]⟩

/-- Two equal single-cell rows. -/
def c2_wit_table : Table :=
  ⟨2, [⟨"a", Dtype.obj, [some (Val.vstr "x"), some (Val.vstr "x")]⟩]⟩

/-- A one-cell table for exercising the cleaning loop. -/
def c3_table : Table := ⟨1, [⟨"a", Dtype.num, [some (Val.vnum 1)]⟩]⟩

/-- A cleaning step that always raises. -/
def c3_fail_fun : Table → Except String Table := fun _ => Except.error "boom"

/-- Seven rows of a plain numeric column with one missing value: the
missing percentage `100/7` makes the raw weighted quality score `670/7`,
which has no exact one-decimal representation. -/
def c4_table : Table :=
  ⟨7, [⟨"x", Dtype.num,
    [some (Val.vnum 1), some (Val.vnum 2), some (Val.vnum 3), some (Val.vnum 4),
     some (Val.vnum 5), some (Val.vnum 6), none]⟩]⟩

/-- A complete 2-row table (for the quality-score witness). -/
def c4_wit_table : Table :=
  ⟨2, [⟨"x", Dtype.num, [some (Val.vnum 1), some (Val.vnum 2)]⟩]⟩

/-- Two rows that differ only by leading whitespace: distinct at
deduplication time, equal after format standardization strips them. -/
def c6_table : Table :=
  ⟨2, [⟨"a", Dtype.obj, [some (Val.vstr " x"), some (Val.vstr "x")]⟩]⟩

/-- The numeric column `[0,0,0,0,1]`: its IQR is 0, so the IQR rule flags
the value 1, while the z-score of 1 is below any threshold ≥ 2. -/
def c7_col : Col :=
  ⟨"v", Dtype.num,
    [some (Val.vnum 0), some (Val.vnum 0), some (Val.vnum 0), some (Val.vnum 0),
     some (Val.vnum 1)]⟩

/-- A datetime column holding 1899-12-31, a date before 1900-01-01. -/
def c8_table : Table := ⟨1, [⟨"d", Dtype.date, [some (Val.vdate 18991231)]⟩]⟩

/-- A datetime column holding one pre-1900 and one future date. -/
def c8_wit_col : Col :=
  ⟨"d", Dtype.date, [some (Val.vdate 18991231), some (Val.vdate 99990101)]⟩

/-- A phone-like object column: one `(NNN) NNN-NNNN` value and one short
digit string. -/
def c9_col : Col :=
  ⟨"phone", Dtype.obj, [some (Val.vstr "(123) 456-7890"), some (Val.vstr "12345")]⟩

/-- A phone-like object column containing a null: the null is stringified
to `'nan'`, whose digit-stripped form is the empty string. -/
def c10_col : Col :=
  ⟨"phone", Dtype.obj, [some (Val.vstr "123-456-7890"), none]⟩

/-- An object column with a null, not phone-like. -/
def c10_wit_col : Col :=
  ⟨"note", Dtype.obj, [some (Val.vstr "hello"), none]⟩

/-! ## Supporting lemmas -/

theorem getD_map_of_lt {α β : Type} (f : α → β) (l : List α) (d : β) {k : ℕ}
    (h : k < l.length) : (l.map f).getD k d = f l[k] := by
  rw [List.getD_eq_getElem _ _ (by simpa using h), List.getElem_map]

theorem getD_of_ge {α : Type} (l : List α) (d : α) {k : ℕ} (h : l.length ≤ k) :
    l.getD k d = d := by
  rw [List.getD_eq_getElem?_getD, List.getElem?_eq_none (by simpa using h)]
  rfl

theorem cell_at_select {idxs : List ℕ} {c : Col} {k : ℕ} (h : k < idxs.length) :
    cell_at (select_col idxs c) k = cell_at c idxs[k] := by
  simp only [select_col, cell_at]
  exact getD_map_of_lt _ _ _ h

theorem select_dtype (idxs : List ℕ) (c : Col) : (select_col idxs c).dtype = c.dtype := rfl

theorem select_name (idxs : List ℕ) (c : Col) : (select_col idxs c).name = c.name := rfl

theorem select_length (idxs : List ℕ) (c : Col) :
    (select_col idxs c).cells.length = idxs.length := by
  simp [select_col]

theorem mem_select_cells {idxs : List ℕ} {c : Col} {x : Cell}
    (h : x ∈ (select_col idxs c).cells) : x = none ∨ x ∈ c.cells := by
  simp only [select_col] at h
  obtain ⟨i, -, rfl⟩ := List.mem_map.1 h
  by_cases hi : i < c.cells.length
  · exact Or.inr (by rw [cell_at, List.getD_eq_getElem _ _ hi]; exact List.getElem_mem hi)
  · exact Or.inl (getD_of_ge _ _ (le_of_not_lt hi))

theorem row_at_reindex {t : Table} {idxs : List ℕ} {k : ℕ} (h : k < idxs.length) :
    row_at (reindex t idxs) k = row_at t idxs[k] := by
  simp only [row_at, reindex, List.map_map]
  exact List.map_congr_left fun c _ => cell_at_select h

theorem table_rows_reindex (t : Table) (idxs : List ℕ) :
    table_rows (reindex t idxs) = idxs.map (row_at t) := by
  apply List.ext_getElem (by simp [table_rows, reindex])
  intro n h1 h2
  simp only [table_rows, reindex] at h1
  simp only [table_rows, List.getElem_map, List.getElem_range]
  rw [row_at_reindex (by simpa using h1)]

theorem row_has_value_reindex {t : Table} {idxs : List ℕ} {k : ℕ} (h : k < idxs.length) :
    row_has_value (reindex t idxs) k = row_has_value t idxs[k] := by
  simp only [row_has_value, reindex]
  rw [Bool.eq_iff_iff]
  simp only [List.any_eq_true]
  constructor
  · rintro ⟨c, hc, hs⟩
    obtain ⟨c0, hc0, rfl⟩ := List.mem_map.1 hc
    exact ⟨c0, hc0, by rwa [cell_at_select h] at hs⟩
  · rintro ⟨c, hc, hs⟩
    exact ⟨select_col idxs c, List.mem_map_of_mem _ hc, by rwa [cell_at_select h]⟩

theorem reindex_WF (t : Table) (idxs : List ℕ) : (reindex t idxs).WF := by
  intro c hc
  simp only [reindex] at hc ⊢
  obtain ⟨c0, -, rfl⟩ := List.mem_map.1 hc
  exact select_length idxs c0

theorem reindex_range_self {t : Table} (hwf : t.WF) : reindex t (List.range t.nrows) = t := by
  have hsel : ∀ c ∈ t.cols, select_col (List.range t.nrows) c = c := by
    intro c hc
    have hlen : c.cells.length = t.nrows := hwf c hc
    have hcell : (List.range t.nrows).map (cell_at c) = c.cells := by
      apply List.ext_getElem (by simp [hlen])
      intro n h1 h2
      simp only [List.getElem_map, List.getElem_range, cell_at]
      exact List.getD_eq_getElem _ _ h2
    simp [select_col, hcell]
  have hcols : t.cols.map (select_col (List.range t.nrows)) = t.cols :=
    (List.map_congr_left hsel).trans (List.map_id _)
  simp only [reindex, List.length_range, hcols]

theorem fill_with_all_some (fv : Val) (cells : List Cell) :
    ∀ x ∈ fill_with fv cells, x.isSome := by
  intro x hx
  obtain ⟨y, -, rfl⟩ := List.mem_map.1 hx
  rfl

theorem col_missing_count_eq_zero {c : Col} :
    col_missing_count c = 0 ↔ ∀ x ∈ c.cells, x.isSome := by
  simp only [col_missing_count, List.countP_eq_zero, Bool.not_eq_true,
    Option.isNone_eq_false_iff]

theorem mean_q_isSome {qs : List ℚ} (h : qs ≠ []) : (mean_q qs).isSome := by
  simp [mean_q, h]

theorem median_date_isSome {ds : List ℤ} (h : ds ≠ []) : (median_date ds).isSome := by
  have hlen : (List.insertionSort (· ≤ ·) ds).length = ds.length :=
    List.length_insertionSort _ _
  simp only [median_date, hlen, List.length_eq_zero]
  split
  · exact absurd (by assumption) h
  · split <;> rfl

theorem num_vals_ne_nil {c : Col} (hw : col_wt c = true) (hd : c.dtype = Dtype.num)
    (h : non_null_vals c ≠ []) : num_vals c ≠ [] := by
  obtain ⟨v, hv⟩ := List.exists_mem_of_ne_nil _ h
  have hfit : cell_fits c.dtype v = true := by
    have := List.all_eq_true.1 hw v hv
    simpa using this
  rw [hd] at hfit
  obtain ⟨q, rfl⟩ : ∃ q, v = Val.vnum q := by
    cases v <;> simp_all [cell_fits]
  intro hnil
  have hmem : some (Val.vnum q) ∈ c.cells := by
    simpa [non_null_vals] using List.mem_filterMap.1 hv
  have : (q : ℚ) ∈ num_vals c := List.mem_filterMap.2 ⟨some (Val.vnum q), hmem, rfl⟩
  simp [hnil] at this

theorem date_vals_ne_nil {c : Col} (hw : col_wt c = true) (hd : c.dtype = Dtype.date)
    (h : non_null_vals c ≠ []) : date_vals c ≠ [] := by
  obtain ⟨v, hv⟩ := List.exists_mem_of_ne_nil _ h
  have hfit : cell_fits c.dtype v = true := by
    have := List.all_eq_true.1 hw v hv
    simpa using this
  rw [hd] at hfit
  obtain ⟨d, rfl⟩ : ∃ d, v = Val.vdate d := by
    cases v <;> simp_all [cell_fits]
  intro hnil
  have hmem : some (Val.vdate d) ∈ c.cells := by
    simpa [non_null_vals] using List.mem_filterMap.1 hv
  have : (d : ℤ) ∈ date_vals c := List.mem_filterMap.2 ⟨some (Val.vdate d), hmem, rfl⟩
  simp [hnil] at this

theorem handle_missing_col_resolves {c : Col} (hw : col_wt c = true)
    (h : c.dtype = Dtype.obj ∨ non_null_vals c ≠ []) :
    col_missing_count (handle_missing_col c) = 0 := by
  unfold handle_missing_col
  split
  · assumption
  · rename_i hmiss
    split
    · rename_i hnum
      rcases h with h | h
      · rw [hnum] at h; cases h
      · have hne := num_vals_ne_nil hw hnum h
        rcases hsome : mean_q (num_vals c) with - | m
        · exact absurd hsome (by simpa [Option.isSome_iff_ne_none] using mean_q_isSome hne)
        · simp only [hsome]
          exact col_missing_count_eq_zero.2 (fill_with_all_some _ _)
    · exact col_missing_count_eq_zero.2 (fill_with_all_some _ _)
    · rename_i hdate
      rcases h with h | h
      · rw [hdate] at h; cases h
      · have hne := date_vals_ne_nil hw hdate h
        rcases hsome : median_date (date_vals c) with - | m
        · exact absurd hsome
            (by simpa [Option.isSome_iff_ne_none] using median_date_isSome hne)
        · simp only [hsome]
          exact col_missing_count_eq_zero.2 (fill_with_all_some _ _)

theorem keep_idx_pairwise (t : Table) (kp : KeepPolicy) :
    (keep_idx t kp).Pairwise fun i j => row_at t i ≠ row_at t j := by
  cases kp
  · simp only [keep_idx]
    refine List.Pairwise.imp_of_mem ?_
      ((List.pairwise_lt_range t.nrows).filter
        (fun i => decide (∀ j ∈ List.range i, row_at t j ≠ row_at t i)))
    intro i j hi hj hlt
    have hpj : ∀ k ∈ List.range j, row_at t k ≠ row_at t j := by
      have := (List.mem_filter.1 hj).2
      simpa using this
    exact hpj i (List.mem_range.2 hlt)
  · simp only [keep_idx]
    refine List.Pairwise.imp_of_mem ?_
      ((List.pairwise_lt_range t.nrows).filter
        (fun i => decide (∀ j ∈ List.range t.nrows, i < j → row_at t j ≠ row_at t i)))
    intro i j hi hj hlt
    have hpi : ∀ k ∈ List.range t.nrows, i < k → row_at t k ≠ row_at t i := by
      have := (List.mem_filter.1 hi).2
      simpa using this
    have hjmem : j ∈ List.range t.nrows := List.mem_of_mem_filter hj
    exact fun he => hpi j hjmem hlt he.symm

theorem run_clean_steps_log_length (steps : List (String × (Table → Except String Table))) :
    ∀ t log, ((run_clean_steps steps t log).2).length = log.length + steps.length := by
  induction steps with
  | nil => intro t log; simp [run_clean_steps]
  | cons st rest ih =>
      intro t log
      rw [run_clean_steps, List.foldl_cons]
      rcases hcall : st.2 t with e | t2
      · have : run_step (t, log) st = (t, log ++ [ActionRec.failure st.1 e]) := by
          simp [run_step, hcall]
        rw [this]
        have := ih t (log ++ [ActionRec.failure st.1 e])
        simp only [run_clean_steps] at this
        rw [this]
        simp [List.length_append]
        omega
      · have : run_step (t, log) st = (t2, log ++ [ActionRec.success st.1]) := by
          simp [run_step, hcall]
        rw [this]
        have := ih t2 (log ++ [ActionRec.success st.1])
        simp only [run_clean_steps] at this
        rw [this]
        simp [List.length_append]
        omega

theorem run_stages_caller (fs : List (Table → Table)) :
    ∀ s : PipeState, (run_stages fs s).caller = s.caller := by
  induction fs with
  | nil => intro s; rfl
  | cons f rest ih =>
      intro s
      rw [run_stages, List.foldl_cons]
      exact ih (apply_stage f s)

/-! ## Claim C1 -/

/-- Claim C1, counterexample: the spec's guarantee of zero remaining nulls
fails on an entirely-null float64 column --- `mean()` of no values is
`NaN`, `fillna(NaN)` is a no-op, so after `_handle_missing_data` the
column still has its null (no remove-row policy exists in the stage, so
the claim's proviso is vacuously satisfied). -/
theorem c1_all_null_column_keeps_null :
    (handle_missing_data c1_table).cols.map col_missing_count = [1] := by decide

/-- Claim C1, amended: after `_handle_missing_data`, every well-typed
column that is of object dtype or has at least one non-null value has zero
remaining nulls.  (Entirely-null numeric and datetime columns are the only
exception: their fill value `mean()`/`median()` is itself missing.  The
stage implements no remove-row policy, so the claim's proviso always
holds.) -/
theorem c1_missing_resolved (t : Table)
    (h : ∀ c ∈ t.cols, col_wt c = true ∧ (c.dtype = Dtype.obj ∨ non_null_vals c ≠ [])) :
    ∀ c ∈ (handle_missing_data t).cols, col_missing_count c = 0 := by
  intro c hc
  simp only [handle_missing_data] at hc
  obtain ⟨c0, hc0, rfl⟩ := List.mem_map.1 hc
  exact handle_missing_col_resolves (h c0 hc0).1 (h c0 hc0).2

/-- Claim C1, witness: a numeric column with one value and one null
satisfies the hypotheses and ends the stage with zero nulls. -/
theorem c1_missing_resolved_witness :
    (∀ c ∈ c1_wit_table.cols,
        col_wt c = true ∧ (c.dtype = Dtype.obj ∨ non_null_vals c ≠ [])) ∧
      ∀ c ∈ (handle_missing_data c1_wit_table).cols, col_missing_count c = 0 :=
  ⟨by decide, c1_missing_resolved c1_wit_table (by decide)⟩

/-! ## Claim C2 -/

/-- Claim C2: after `drop_duplicates` under keep-policy `first` or `last`
over the default key (all columns, nulls comparing equal), no two surviving
rows are equal; `_remove_duplicates` is exactly the `first` policy.  The
table is required to have at least one column: over the empty key of a
zero-column frame the library returns the frame unchanged. -/
theorem c2_dedup_no_duplicate_survivors (t : Table) (kp : KeepPolicy)
    (h : t.cols ≠ []) :
    (table_rows (drop_duplicates kp t)).Pairwise (· ≠ ·) ∧
      remove_duplicates t = drop_duplicates KeepPolicy.first t := by
  refine ⟨?_, rfl⟩
  have hne : t.cols.isEmpty = false := by simpa [List.isEmpty_iff] using h
  simp only [drop_duplicates, hne, Bool.false_eq_true, if_false]
  rw [table_rows_reindex, List.pairwise_map]
  exact keep_idx_pairwise t kp

/-- Claim C2, witness: deduplicating two equal rows leaves pairwise
distinct rows. -/
theorem c2_dedup_witness :
    c2_wit_table.cols ≠ [] ∧
      (table_rows (drop_duplicates KeepPolicy.first c2_wit_table)).Pairwise (· ≠ ·) :=
  ⟨by decide,
    (c2_dedup_no_duplicate_survivors c2_wit_table KeepPolicy.first (by decide)).1⟩

/-! ## Claim C3 -/

/-- Claim C3: in the cleaning loop, a stage that raises contributes exactly
a failure record to the log and the pipeline continues with the table it
had before that stage; every stage (failing or not) appends exactly one
record, so no failure aborts the loop; and the loop over the concrete
`cleaning_steps` computes `clean_data`. -/
theorem c3_stage_failure_isolated :
    (∀ (name : String) (f : Table → Except String Table) rest t log e,
        f t = Except.error e →
          run_clean_steps ((name, f) :: rest) t log =
            run_clean_steps rest t (log ++ [ActionRec.failure name e])) ∧
      (∀ steps t log,
        ((run_clean_steps steps t log).2).length = log.length + steps.length) ∧
      ∀ t, (run_clean_steps cleaning_steps t []).1 = clean_data t := by
  refine ⟨?_, run_clean_steps_log_length, fun t => rfl⟩
  intro name f rest t log e hf
  simp [run_clean_steps, run_step, hf]

/-- Claim C3, witness: a concrete always-raising stage is logged as a
failure and the loop continues with the unchanged table. -/
theorem c3_stage_failure_witness :
    run_clean_steps [("stage", c3_fail_fun)] c3_table [] =
      run_clean_steps [] c3_table ([] ++ [ActionRec.failure "stage" "boom"]) :=
  c3_stage_failure_isolated.1 "stage" c3_fail_fun [] c3_table [] "boom" rfl

/-! ## Claim C5 -/

/-- Claim C5: the pipeline copies the caller's table on entry and every
stage reads and writes only the working copy, so after the full pipeline
(and after any stage list whatsoever) the caller's table is unchanged. -/
theorem c5_caller_table_never_mutated :
    (∀ t, (run_full_pipeline t).caller = t) ∧
      ∀ (fs : List (Table → Table)) (t : Table),
        (run_stages fs (pipeline_entry t)).caller = t :=
  ⟨fun t => run_stages_caller pipeline_stage_list (pipeline_entry t),
    fun fs t => run_stages_caller fs (pipeline_entry t)⟩

/-! ## Claim C8 -/

/-- Claim C8, counterexample: a datetime value before 1900-01-01 raises no
issue in the cleaning pipeline's consistency stage `_validate_consistency`
--- the stage checks future dates only, the claim's pre-1900 rule lives in
the validator, not in the cleaning stage. -/
theorem c8_old_date_not_flagged_by_stage :
    validate_consistency_issues 20251012 c8_table = [] ∧
      old_count ⟨"d", Dtype.date, [some (Val.vdate 18991231)]⟩ = 1 := by decide

/-- Claim C8, amended: the cleaning pipeline's consistency stage does not
mutate the data; it flags every datetime column containing values after
`now` (with the exact count of such values) and raises only
future-date/negative-value issues --- never a pre-1900 issue.  The
validator's `_check_date_consistency`, by contrast, flags both the
future-date count and the pre-1900 count. -/
theorem c8_consistency_stage_flags (now : ℤ) (t : Table) :
    validate_consistency_stage t = t ∧
      (∀ c ∈ t.cols, c.dtype = Dtype.date → 0 < future_count now c →
        Issue.mk c.name IssueKind.future_date (future_count now c) ∈
          validate_consistency_issues now t) ∧
      (∀ i ∈ validate_consistency_issues now t, i.kind ≠ IssueKind.old_date) ∧
      (∀ c : Col, 0 < future_count now c →
        Issue.mk c.name IssueKind.future_date (future_count now c) ∈
          check_date_issues now c) ∧
      ∀ c : Col, 0 < old_count c →
        Issue.mk c.name IssueKind.old_date (old_count c) ∈ check_date_issues now c := by
  refine ⟨rfl, ?_, ?_, ?_, ?_⟩
  · intro c hc hdt hcnt
    refine List.mem_append.2 (Or.inl (List.mem_filterMap.2 ⟨c, ?_, ?_⟩))
    · exact List.mem_filter.2 ⟨hc, by simp [hdt]⟩
    · rw [if_pos hcnt]
  · intro i hi
    rcases List.mem_append.1 hi with h | h
    · obtain ⟨a, -, heq⟩ := List.mem_filterMap.1 h
      split at heq
      · cases heq; simp
      · cases heq
    · obtain ⟨a, -, heq⟩ := List.mem_filterMap.1 h
      split at heq
      · cases heq; simp
      · cases heq
  · intro c hcnt
    exact List.mem_append.2 (Or.inl (by rw [if_pos hcnt]; exact List.mem_singleton.2 rfl))
  · intro c hcnt
    exact List.mem_append.2 (Or.inr (by rw [if_pos hcnt]; exact List.mem_singleton.2 rfl))

/-- Claim C8, witness: on a column holding 1899-12-31 and 9999-01-01 the
validator's date check flags both counts, and the stage leaves a concrete
table unchanged. -/
theorem c8_consistency_witness :
    Issue.mk "d" IssueKind.old_date 1 ∈ check_date_issues 20251012 c8_wit_col ∧
      Issue.mk "d" IssueKind.future_date 1 ∈ check_date_issues 20251012 c8_wit_col ∧
      validate_consistency_stage c8_table = c8_table :=
  ⟨(c8_consistency_stage_flags 20251012 c8_table).2.2.2.2 c8_wit_col (by decide),
    (c8_consistency_stage_flags 20251012 c8_table).2.2.2.1 c8_wit_col (by decide),
    (c8_consistency_stage_flags 20251012 c8_table).1⟩

/-! ## Claim C9 -/

/-- Claim C9: on a column the stage handles as phone-like (the phone
detection fires and the email detection, checked first, does not), format
standardization rewrites every stringified-and-stripped value by removing
all its non-digit characters, re-rendering an exactly-10-digit result as
`NNN-NNN-NNNN` (`x[:3]-x[3:6]-x[6:]`) and leaving any other digit string
as-is. -/
theorem c9_phone_standardization (c : Col) (hd : c.dtype = Dtype.obj)
    (he : is_email_column (stripped_cells c) = false)
    (hp : is_phone_column (stripped_cells c) = true) :
    (standardize_col c).cells =
      (stripped_cells c).map (fun s => some (Val.vstr (standardize_phone s))) ∧
      (∀ s, (digits_of s).length = 10 →
        standardize_phone s =
          str_take (digits_of s) 3 ++ "-" ++ str_take (str_drop (digits_of s) 3) 3 ++
            "-" ++ str_drop (digits_of s) 6) ∧
      (∀ s, (digits_of s).length ≠ 10 → standardize_phone s = digits_of s) ∧
      ∀ s, (digits_of s).toList.all Char.isDigit = true := by
  refine ⟨?_, ?_, ?_, ?_⟩
  · simp [standardize_col, hd, he, hp]
  · intro s h
    simp [standardize_phone, h]
  · intro s h
    simp [standardize_phone, h]
  · intro s
    apply List.all_eq_true.2
    intro a ha
    have ha' : a ∈ s.toList.filter Char.isDigit := ha
    exact (List.mem_filter.1 ha').2

/-- Claim C9, witness: the column `["(123) 456-7890", "12345"]` is detected
as phone-like and standardizes to `["123-456-7890", "12345"]`. -/
theorem c9_phone_witness :
    is_email_column (stripped_cells c9_col) = false ∧
      is_phone_column (stripped_cells c9_col) = true ∧
      (standardize_col c9_col).cells =
        (stripped_cells c9_col).map (fun s => some (Val.vstr (standardize_phone s))) ∧
      (standardize_col c9_col).cells =
        [some (Val.vstr "123-456-7890"), some (Val.vstr "12345")] :=
  ⟨by decide, by decide,
    (c9_phone_standardization c9_col rfl (by decide) (by decide)).1, by decide⟩

/-! ## Claim C10 -/

/-- Claim C10, counterexample: in a phone-detected text column a null is
first stringified to `'nan'` and then digit-stripped to the empty string,
not to the literal `'nan'` the claim states. -/
theorem c10_null_in_phone_column :
    (standardize_col c10_col).cells =
      [some (Val.vstr "123-456-7890"), some (Val.vstr "")] := by decide

/-- Claim C10, amended: format standardization turns every cell of a text
column into a non-null string --- nulls never survive the stage as nulls
--- and in every column except a phone-detected one (where the digit strip
empties it) a null cell becomes exactly the literal string `'nan'`. -/
theorem c10_text_nulls_stringified (c : Col) (hd : c.dtype = Dtype.obj) :
    (∀ x ∈ (standardize_col c).cells, ∃ s, x = some (Val.vstr s)) ∧
      ((is_email_column (stripped_cells c) = true ∨
          is_phone_column (stripped_cells c) = false) →
        ∀ k, k < c.cells.length → c.cells.getD k none = none →
          (standardize_col c).cells.getD k none = some (Val.vstr "nan")) := by
  constructor
  · intro x hx
    by_cases he : is_email_column (stripped_cells c) = true
    · simp only [standardize_col, hd, if_pos, he, if_true] at hx
      obtain ⟨s, -, rfl⟩ := List.mem_map.1 hx
      exact ⟨_, rfl⟩
    · by_cases hp : is_phone_column (stripped_cells c) = true
      · simp only [standardize_col, hd, if_pos, he, hp, if_false, if_true] at hx
        obtain ⟨s, -, rfl⟩ := List.mem_map.1 hx
        exact ⟨_, rfl⟩
      · simp only [standardize_col, hd, if_pos, he, hp, if_false] at hx
        obtain ⟨s, -, rfl⟩ := List.mem_map.1 hx
        exact ⟨_, rfl⟩
  · intro hcond k hk hnull
    have hcell : c.cells[k] = none := by
      rw [List.getD_eq_getElem _ _ hk] at hnull
      exact hnull
    have hmap : ∀ (g : String → Cell),
        ((stripped_cells c).map g).getD k none = g (py_strip (py_str c.cells[k])) := by
      intro g
      rw [stripped_cells, List.map_map,
        getD_map_of_lt (g ∘ fun x => py_strip (py_str x)) c.cells none hk]
      rfl
    have hb1 : standardize_email (py_strip (py_str none)) = "nan" := by decide
    have hb2 : py_strip (py_str none) = "nan" := by decide
    by_cases he : is_email_column (stripped_cells c) = true
    · simp only [standardize_col, hd, if_pos, he, if_true]
      simp only [hmap, hcell, hb1]
    · have he' : is_email_column (stripped_cells c) = false := by simpa using he
      by_cases hp : is_phone_column (stripped_cells c) = true
      · rcases hcond with hcond | hcond
        · exact absurd hcond he
        · rw [hcond] at hp; cases hp
      · have hp' : is_phone_column (stripped_cells c) = false := by simpa using hp
        simp only [standardize_col, hd, if_pos, he', hp', Bool.false_eq_true, if_false]
        simp only [hmap, hcell, hb2]

/-- Claim C10, witness: in a plain (non-phone) text column the null cell
ends the stage as the literal string `'nan'`. -/
theorem c10_text_nulls_witness :
    (standardize_col c10_wit_col).cells.getD 1 none = some (Val.vstr "nan") :=
  (c10_text_nulls_stringified c10_wit_col rfl).2 (Or.inr (by decide)) 1 (by decide)
    (by decide)

theorem zscore_mem_iff {thr : ℚ} {cells : List Cell} {v : ℚ}
    (hv : sample_var (cells.filterMap get_num) = some v) (hv0 : v ≠ 0)
    {i : ℕ} {x : ℚ} (hx : cells[i]? = some (some (Val.vnum x))) :
    i ∈ zscore_row_idx thr cells ↔
      thr ^ 2 * v < (x - list_mean (cells.filterMap get_num)) ^ 2 := by
  have hi : i < cells.length := by
    by_contra h'
    rw [List.getElem?_eq_none (le_of_not_lt h')] at hx
    cases hx
  have hcell : cells[i] = some (Val.vnum x) := by
    rw [List.getElem?_eq_getElem hi] at hx
    exact Option.some.inj hx
  unfold zscore_row_idx
  rw [hv]
  dsimp only
  rw [if_neg hv0]
  constructor
  · intro h
    obtain ⟨⟨j, cell⟩, hp, heq⟩ := List.mem_filterMap.1 h
    obtain ⟨hj, hpx⟩ := List.mem_enum hp
    rcases hgn : get_num cell with - | y
    · rw [hgn] at heq; cases heq
    · rw [hgn] at heq
      dsimp only at heq
      by_cases hcond :
          thr ^ 2 * v < (y - list_mean (List.filterMap get_num cells)) ^ 2
      · rw [if_pos hcond] at heq
        have hji : j = i := Option.some.inj heq
        subst hji
        have hcc : cell = some (Val.vnum x) := by rw [hpx, hcell]
        rw [hcc] at hgn
        simp only [get_num, Option.some.injEq] at hgn
        rw [hgn]
        exact hcond
      · rw [if_neg hcond] at heq
        cases heq
  · intro h
    refine List.mem_filterMap.2 ⟨(i, some (Val.vnum x)), ?_, ?_⟩
    · have hlen : i < cells.enum.length := by rw [List.enum_length]; exact hi
      have := List.getElem_enum cells i hlen
      rw [hcell] at this
      rw [← this]
      exact List.getElem_mem hlen
    · simp only [get_num, if_pos h]

theorem zscore_sq_iff_abs {thr v x m : ℚ} (hthr : 0 ≤ thr) (hv : 0 < v) :
    thr ^ 2 * v < (x - m) ^ 2 ↔
      (thr : ℝ) < |(x : ℝ) - (m : ℝ)| / Real.sqrt (v : ℝ) := by
  have hv' : (0 : ℝ) < (v : ℝ) := by exact_mod_cast hv
  have hsq : (0 : ℝ) < Real.sqrt (v : ℝ) := Real.sqrt_pos.2 hv'
  rw [lt_div_iff₀ hsq]
  rw [show (thr : ℝ) * Real.sqrt (v : ℝ) = Real.sqrt ((thr : ℝ) ^ 2 * (v : ℝ)) by
    rw [Real.sqrt_mul (sq_nonneg _), Real.sqrt_sq (by exact_mod_cast hthr)]]
  rw [show |(x : ℝ) - (m : ℝ)| = Real.sqrt (((x : ℝ) - (m : ℝ)) ^ 2) from
    (Real.sqrt_sq_eq_abs _).symm]
  rw [Real.sqrt_lt_sqrt_iff (by positivity)]
  constructor
  · intro h
    exact_mod_cast h
  · intro h
    exact_mod_cast h

/-! ## Claim C7 -/

/-- Claim C7: the configurable outlier detector (`detect_outliers`, driven
by the unit tests with `method='iqr'|'zscore'`; its implementation is not
under `src/`, so it is modelled from the spec) offers the two rules: under
`method='iqr'` it computes exactly the flags of the in-src IQR stage
`_detect_outliers`; under `method='zscore'` a numeric value is flagged iff
`|value - mean| / stddev > threshold` (sample standard deviation, threshold
nonnegative --- default 3.0), and no values are flagged when the standard
deviation is 0 or undefined. -/
theorem c7_outlier_rules :
    (∀ (thr : ℚ) (c : Col),
        detect_outliers_method OutlierMethod.iqr thr c = outlier_row_idx c) ∧
      (∀ (thr : ℚ) (c : Col) (v : ℚ) (i : ℕ) (x : ℚ), 0 ≤ thr →
        sample_var (num_vals c) = some v → 0 < v →
        c.cells[i]? = some (some (Val.vnum x)) →
        (i ∈ detect_outliers_method OutlierMethod.zscore thr c ↔
          (thr : ℝ) < |(x : ℝ) - (list_mean (num_vals c) : ℝ)| / Real.sqrt (v : ℝ))) ∧
      ∀ (thr : ℚ) (cells : List Cell),
        sample_var (cells.filterMap get_num) = none ∨
            sample_var (cells.filterMap get_num) = some 0 →
          zscore_row_idx thr cells = [] := by
  refine ⟨fun thr c => rfl, ?_, ?_⟩
  · intro thr c v i x hthr hv hv0 hx
    have h1 : i ∈ zscore_row_idx thr c.cells ↔
        thr ^ 2 * v < (x - list_mean (c.cells.filterMap get_num)) ^ 2 :=
      zscore_mem_iff (by exact hv) (ne_of_gt hv0) hx
    exact h1.trans (zscore_sq_iff_abs hthr hv0)
  · intro thr cells h
    unfold zscore_row_idx
    rcases h with h | h <;> simp [h]

theorem c7_col_num_vals : num_vals c7_col = [0, 0, 0, 0, 1] := rfl

theorem c7_col_var : sample_var (num_vals c7_col) = some (1/5) := by
  rw [c7_col_num_vals]
  simp only [sample_var, list_mean, List.length_cons, List.length_nil, List.map_cons,
    List.map_nil, List.sum_cons, List.sum_nil]
  norm_num

/-- Claim C7, witness: on the column `[0,0,0,0,1]` (mean `1/5`, sample
variance `1/5`) the z-score characterization holds at index 4, and the IQR
branch equals the in-src stage's flags. -/
theorem c7_outlier_witness :
    (4 ∈ detect_outliers_method OutlierMethod.zscore 3 c7_col ↔
        (3 : ℝ) < |((1 : ℚ) : ℝ) - (list_mean (num_vals c7_col) : ℝ)| /
          Real.sqrt (((1/5 : ℚ) : ℝ))) ∧
      detect_outliers_method OutlierMethod.iqr 3 c7_col = outlier_row_idx c7_col :=
  ⟨c7_outlier_rules.2.1 3 c7_col (1/5) 4 1 (by norm_num) c7_col_var (by norm_num)
      rfl,
    c7_outlier_rules.1 3 c7_col⟩

theorem missing_cells_le_total {t : Table} (hwf : t.WF) :
    missing_cells t ≤ total_cells t := by
  have h1 : (t.cols.map col_missing_count).sum ≤ (t.cols.map fun _ => t.nrows).sum :=
    List.sum_le_sum fun c hc =>
      le_trans (List.countP_le_length _) (le_of_eq (hwf c hc))
  have h2 : (t.cols.map fun _ : Col => t.nrows).sum = t.cols.length * t.nrows := by
    rw [List.map_const', List.sum_replicate, smul_eq_mul]
  rw [missing_cells, total_cells, Nat.mul_comm]
  exact le_trans h1 (le_of_eq h2)

theorem duplicate_rows_le (t : Table) : duplicate_rows t ≤ t.nrows := by
  unfold duplicate_rows
  split
  · exact Nat.zero_le _
  · exact le_trans (List.countP_le_length _) (le_of_eq (List.length_range _))

theorem completeness_score_bounds {t : Table} (hwf : t.WF) :
    0 ≤ completeness_score t ∧ completeness_score t ≤ 100 := by
  have hb : 0 ≤ missing_percentage t ∧ missing_percentage t ≤ 100 := by
    unfold missing_percentage
    split
    · rename_i hpos
      have hle : (missing_cells t : ℚ) ≤ (total_cells t : ℚ) := by
        exact_mod_cast missing_cells_le_total hwf
      have htpos : (0 : ℚ) < (total_cells t : ℚ) := by exact_mod_cast hpos
      constructor
      · positivity
      · calc (missing_cells t : ℚ) / (total_cells t : ℚ) * 100
            ≤ 1 * 100 := by
              apply mul_le_mul_of_nonneg_right _ (by norm_num)
              exact (div_le_one htpos).2 hle
          _ = 100 := by norm_num
    · norm_num
  unfold completeness_score
  constructor <;> linarith [hb.1, hb.2]

theorem uniqueness_score_bounds (t : Table) :
    0 ≤ uniqueness_score t ∧ uniqueness_score t ≤ 100 := by
  unfold uniqueness_score
  split
  · rename_i hpos
    have hle : (duplicate_rows t : ℚ) ≤ (t.nrows : ℚ) := by
      exact_mod_cast duplicate_rows_le t
    have hd0 : (0 : ℚ) ≤ (duplicate_rows t : ℚ) := by positivity
    have hnpos : (0 : ℚ) < (t.nrows : ℚ) := by exact_mod_cast hpos
    constructor
    · apply mul_nonneg _ (by norm_num)
      apply div_nonneg _ (le_of_lt hnpos)
      linarith
    · calc ((t.nrows : ℚ) - (duplicate_rows t : ℚ)) / (t.nrows : ℚ) * 100
          ≤ 1 * 100 := by
            apply mul_le_mul_of_nonneg_right _ (by norm_num)
            apply (div_le_one hnpos).2
            linarith
        _ = 100 := by norm_num
  · norm_num

theorem consistency_score_bounds (now : ℤ) (t : Table) :
    0 ≤ consistency_score now t ∧ consistency_score now t ≤ 100 := by
  unfold consistency_score
  refine ⟨le_max_left 0 _, max_le (by norm_num) ?_⟩
  have : (0 : ℚ) ≤ ((assess_consistency_issues now t).length : ℚ) * 10 := by positivity
  linarith

theorem accuracy_score_bounds (t : Table) :
    0 ≤ accuracy_score t ∧ accuracy_score t ≤ 100 := by
  unfold accuracy_score
  refine ⟨le_max_left 0 _, max_le (by norm_num) ?_⟩
  have : (0 : ℚ) ≤ ((assess_accuracy_issues t).length : ℚ) * 15 := by positivity
  linarith

theorem round1_bounds {x : ℚ} (h0 : 0 ≤ x) (h100 : x ≤ 100) :
    0 ≤ round1 x ∧ round1 x ≤ 100 := by
  unfold round1
  constructor
  · have : (0 : ℤ) ≤ ⌊x * 10 + 1/2⌋ := Int.floor_nonneg.2 (by linarith)
    have : (0 : ℚ) ≤ (⌊x * 10 + 1/2⌋ : ℚ) := by exact_mod_cast this
    linarith
  · have h1 : ⌊x * 10 + 1/2⌋ < 1001 := Int.floor_lt.2 (by push_cast; linarith)
    have h2 : (⌊x * 10 + 1/2⌋ : ℚ) ≤ 1000 := by exact_mod_cast Int.lt_add_one_iff.1 h1
    linarith

theorem consistency_issues_nil_of_no_rows (now : ℤ) {t : Table} (hwf : t.WF)
    (h0 : t.nrows = 0) : assess_consistency_issues now t = [] := by
  have hcells : ∀ c ∈ t.cols, c.cells = [] := fun c hc =>
    List.length_eq_zero.1 (by rw [hwf c hc, h0])
  unfold assess_consistency_issues
  rw [List.append_eq_nil, List.append_eq_nil]
  refine ⟨⟨?_, ?_⟩, ?_⟩
  · apply List.filterMap_eq_nil_iff.2
    intro c hc
    have hcc := hcells c (List.mem_of_mem_filter hc)
    have hm : mixed_case_count c = 0 := by simp [mixed_case_count, hcc]
    rw [hm, h0]
    norm_num
  · apply List.flatMap_eq_nil_iff.2
    intro c hc
    have hcc := hcells c (List.mem_of_mem_filter hc)
    have ha : bad_age_count c = 0 := by simp [bad_age_count, hcc]
    have hp : bad_percent_count c = 0 := by simp [bad_percent_count, hcc]
    simp [range_issues, ha, hp]
  · apply List.flatMap_eq_nil_iff.2
    intro c hc
    have hcc := hcells c (List.mem_of_mem_filter hc)
    have hf : future_count now c = 0 := by simp [future_count, hcc]
    have ho : old_count c = 0 := by simp [old_count, hcc]
    simp [check_date_issues, hf, ho]

theorem consistency_issues_nil_of_no_cols (now : ℤ) {t : Table} (h : t.cols = []) :
    assess_consistency_issues now t = [] := by
  simp [assess_consistency_issues, h]

theorem accuracy_issues_nil_of_no_rows {t : Table} (hwf : t.WF)
    (h0 : t.nrows = 0) : assess_accuracy_issues t = [] := by
  have hcells : ∀ c ∈ t.cols, c.cells = [] := fun c hc =>
    List.length_eq_zero.1 (by rw [hwf c hc, h0])
  unfold assess_accuracy_issues
  rw [List.append_eq_nil]
  constructor
  · apply List.filterMap_eq_nil_iff.2
    intro c hc
    have hcc := hcells c (List.mem_of_mem_filter hc)
    have hn : non_null_count c = 0 := by simp [non_null_count, hcc]
    have hi : invalid_email_count c = 0 := by
      unfold invalid_email_count
      rw [hn]
      exact Nat.zero_sub _
    simp [hi]
  · apply List.filterMap_eq_nil_iff.2
    intro c hc
    have hcc := hcells c (List.mem_of_mem_filter hc)
    have hn : non_null_count c = 0 := by simp [non_null_count, hcc]
    have hi : invalid_phone_count c = 0 := by
      unfold invalid_phone_count
      rw [hn]
      exact Nat.zero_sub _
    simp [hi]

theorem accuracy_issues_nil_of_no_cols {t : Table} (h : t.cols = []) :
    assess_accuracy_issues t = [] := by
  simp [assess_accuracy_issues, h]

theorem round1_hundred : round1 100 = 100 := by
  unfold round1
  have h : (⌊(100 : ℚ) * 10 + 1/2⌋ : ℤ) = 1000 := by
    rw [Int.floor_eq_iff]; norm_num
  rw [h]
  norm_num

/-! ## Claim C4 -/

/-- Claim C4, amended: the overall quality score is bounded by 0 and 100
for every well-formed table and equals 100 for a table with zero cells;
it is the weighted sum completeness*0.30 + uniqueness*0.25 +
consistency*0.25 + accuracy*0.20 of the 0-100 component scores *rounded to
one decimal place* (`round(..., 1)` in `_calculate_quality_score`), not the
exact weighted sum the claim states. -/
theorem c4_overall_score_bounds (now : ℤ) (t : Table) (hwf : t.WF) :
    (0 ≤ overall_score now t ∧ overall_score now t ≤ 100) ∧
      (total_cells t = 0 → overall_score now t = 100) ∧
      overall_score now t = round1 (overall_raw now t) := by
  have hc := completeness_score_bounds hwf
  have hu := uniqueness_score_bounds t
  have hk := consistency_score_bounds now t
  have ha := accuracy_score_bounds t
  have hraw : 0 ≤ overall_raw now t ∧ overall_raw now t ≤ 100 := by
    unfold overall_raw
    constructor <;> linarith [hc.1, hc.2, hu.1, hu.2, hk.1, hk.2, ha.1, ha.2]
  refine ⟨round1_bounds hraw.1 hraw.2, ?_, rfl⟩
  intro h0
  have hcomp : completeness_score t = 100 := by
    unfold completeness_score missing_percentage
    rw [h0]
    norm_num
  rcases Nat.mul_eq_zero.1 h0 with hr | hcl
  · have hcons : consistency_score now t = 100 := by
      unfold consistency_score
      rw [consistency_issues_nil_of_no_rows now hwf hr]
      simp
    have hacc : accuracy_score t = 100 := by
      unfold accuracy_score
      rw [accuracy_issues_nil_of_no_rows hwf hr]
      simp
    have huniq : uniqueness_score t = 100 := by
      unfold uniqueness_score
      rw [hr]
      norm_num
    unfold overall_score overall_raw
    rw [hcomp, hcons, hacc, huniq]
    norm_num
    exact round1_hundred
  · have hcols : t.cols = [] := List.length_eq_zero.1 hcl
    have hcons : consistency_score now t = 100 := by
      unfold consistency_score
      rw [consistency_issues_nil_of_no_cols now hcols]
      simp
    have hacc : accuracy_score t = 100 := by
      unfold accuracy_score
      rw [accuracy_issues_nil_of_no_cols hcols]
      simp
    have huniq : uniqueness_score t = 100 := by
      have hd : duplicate_rows t = 0 := by
        unfold duplicate_rows
        rw [if_pos (by simp [hcols])]
      unfold uniqueness_score
      rw [hd]
      split
      · rename_i hpos
        have : (0 : ℚ) < (t.nrows : ℚ) := by exact_mod_cast hpos
        field_simp
      · rfl
    unfold overall_score overall_raw
    rw [hcomp, hcons, hacc, huniq]
    norm_num
    exact round1_hundred

/-- Claim C4, witness: a complete two-row table is well-formed and its
overall score sits inside the bounds. -/
theorem c4_overall_witness :
    c4_wit_table.WF ∧ 0 ≤ overall_score 0 c4_wit_table ∧
      overall_score 0 c4_wit_table ≤ 100 :=
  ⟨by decide, (c4_overall_score_bounds 0 c4_wit_table (by decide)).1.1,
    (c4_overall_score_bounds 0 c4_wit_table (by decide)).1.2⟩

/-- Claim C4, counterexample: on a seven-row numeric column with one
missing value the weighted sum is `670/7`, which the code rounds to one
decimal, `95.7`; the stored overall score is therefore not the weighted
sum itself. -/
theorem c4_score_is_rounded_not_exact :
    overall_raw 0 c4_table = 670/7 ∧ overall_score 0 c4_table = 957/10 ∧
      overall_score 0 c4_table ≠ overall_raw 0 c4_table := by
  have hmiss : missing_cells c4_table = 1 := by decide
  have htot : total_cells c4_table = 7 := by decide
  have hdup : duplicate_rows c4_table = 0 := by decide
  have hrows : c4_table.nrows = 7 := rfl
  have hcons : assess_consistency_issues 0 c4_table = [] := by decide
  have hacc : assess_accuracy_issues c4_table = [] := by decide
  have hraw : overall_raw 0 c4_table = 670/7 := by
    unfold overall_raw completeness_score missing_percentage uniqueness_score
      consistency_score accuracy_score
    rw [hmiss, htot, hdup, hrows, hcons, hacc]
    norm_num
  have hscore : overall_score 0 c4_table = 957/10 := by
    unfold overall_score round1
    rw [hraw]
    have h : (⌊(670/7 : ℚ) * 10 + 1/2⌋ : ℤ) = 957 := by
      rw [Int.floor_eq_iff]; norm_num
    rw [h]
    norm_num
  refine ⟨hraw, hscore, ?_⟩
  rw [hraw, hscore]
  norm_num

theorem handle_missing_col_length (c : Col) :
    (handle_missing_col c).cells.length = c.cells.length := by
  unfold handle_missing_col
  split
  · rfl
  · split
    · split <;> simp [fill_with]
    · simp [fill_with]
    · split <;> simp [fill_with]

theorem handle_missing_col_dtype (c : Col) :
    (handle_missing_col c).dtype = c.dtype := by
  unfold handle_missing_col
  split
  · rfl
  · split
    · split <;> rfl
    · rfl
    · split <;> rfl

theorem standardize_col_length (c : Col) :
    (standardize_col c).cells.length = c.cells.length := by
  unfold standardize_col
  split
  · dsimp only
    split
    · simp [stripped_cells]
    · split <;> simp [stripped_cells]
  · rfl

theorem standardize_col_dtype (c : Col) :
    (standardize_col c).dtype = c.dtype := by
  unfold standardize_col
  split
  · dsimp only
    split
    · rfl
    · split <;> rfl
  · rfl

theorem standardize_col_non_obj {c : Col} (hd : c.dtype ≠ Dtype.obj) :
    standardize_col c = c := by
  unfold standardize_col
  rw [if_neg hd]

theorem handle_missing_data_WF {t : Table} (h : t.WF) : (handle_missing_data t).WF := by
  intro c hc
  obtain ⟨c0, hc0, rfl⟩ := List.mem_map.1 hc
  rw [handle_missing_col_length]
  exact h c0 hc0

theorem standardize_formats_WF {t : Table} (h : t.WF) : (standardize_formats t).WF := by
  intro c hc
  obtain ⟨c0, hc0, rfl⟩ := List.mem_map.1 hc
  rw [standardize_col_length]
  exact h c0 hc0

theorem remove_duplicates_WF {t : Table} (h : t.WF) : (remove_duplicates t).WF := by
  unfold remove_duplicates drop_duplicates
  split
  · exact h
  · exact reindex_WF t _

theorem clean_data_WF (t : Table) : (clean_data t).WF :=
  standardize_formats_WF (remove_duplicates_WF (handle_missing_data_WF (reindex_WF t _)))

theorem handle_missing_col_isSome {c : Col} {i : ℕ}
    (h : (cell_at c i).isSome) : (cell_at (handle_missing_col c) i).isSome := by
  have hi : i < c.cells.length := by
    by_contra h'
    rw [cell_at, getD_of_ge _ _ (le_of_not_lt h')] at h
    cases h
  have hfill : ∀ fv : Val,
      (cell_at { c with cells := fill_with fv c.cells } i).isSome = true := by
    intro fv
    rw [cell_at]
    show ((fill_with fv c.cells).getD i none).isSome = true
    rw [fill_with, getD_map_of_lt _ _ _ hi]
    rfl
  unfold handle_missing_col
  split
  · exact h
  · split
    · split
      · exact h
      · exact hfill _
    · exact hfill _
    · split
      · exact h
      · exact hfill _

theorem standardize_col_isSome {c : Col} {i : ℕ}
    (h : (cell_at c i).isSome) : (cell_at (standardize_col c) i).isSome := by
  have hi : i < c.cells.length := by
    by_contra h'
    rw [cell_at, getD_of_ge _ _ (le_of_not_lt h')] at h
    cases h
  have hmapped : ∀ g : String → Val,
      (cell_at { c with cells := (stripped_cells c).map fun s => some (g s) } i).isSome =
        true := by
    intro g
    rw [cell_at]
    show (((stripped_cells c).map fun s => some (g s)).getD i none).isSome = true
    rw [stripped_cells, List.map_map, getD_map_of_lt _ _ _ hi]
    rfl
  unfold standardize_col
  split
  · dsimp only
    split
    · exact hmapped _
    · split
      · exact hmapped _
      · exact hmapped _
  · exact h

theorem row_has_value_map {t : Table} {f : Col → Col}
    (hf : ∀ (c : Col) (i : ℕ), (cell_at c i).isSome → (cell_at (f c) i).isSome) {k : ℕ}
    (h : row_has_value t k = true) :
    row_has_value { t with cols := t.cols.map f } k = true := by
  simp only [row_has_value, List.any_eq_true] at h ⊢
  obtain ⟨c, hc, hs⟩ := h
  exact ⟨f c, List.mem_map_of_mem f hc, hf c k hs⟩

theorem remove_empty_rows_value (t : Table) :
    ∀ k, k < (remove_empty_rows t).nrows → row_has_value (remove_empty_rows t) k = true := by
  intro k hk
  have hk' : k < ((List.range t.nrows).filter (row_has_value t)).length := hk
  rw [remove_empty_rows, row_has_value_reindex hk']
  have hmem := List.getElem_mem hk'
  exact (List.mem_filter.1 hmem).2

theorem remove_duplicates_row_value {v : Table}
    (hv : ∀ j, j < v.nrows → row_has_value v j = true) :
    ∀ j, j < (remove_duplicates v).nrows →
      row_has_value (remove_duplicates v) j = true := by
  intro j hj
  unfold remove_duplicates drop_duplicates at hj ⊢
  by_cases hemp : v.cols.isEmpty
  · rw [if_pos hemp] at hj ⊢
    exact hv j hj
  · rw [if_neg hemp] at hj ⊢
    have hj' : j < (keep_idx v KeepPolicy.first).length := hj
    rw [row_has_value_reindex hj']
    have hmem := List.getElem_mem hj'
    have hlt : (keep_idx v KeepPolicy.first)[j] < v.nrows := by
      have hmem' : (keep_idx v KeepPolicy.first)[j] ∈ List.range v.nrows := by
        simp only [keep_idx] at hmem
        exact List.mem_of_mem_filter hmem
      exact List.mem_range.1 hmem'
    exact hv _ hlt

theorem clean_data_row_value (t : Table) :
    ∀ k, k < (clean_data t).nrows → row_has_value (clean_data t) k = true := by
  intro k hk
  have hv : ∀ j, j < (handle_missing_data (remove_empty_rows t)).nrows →
      row_has_value (handle_missing_data (remove_empty_rows t)) j = true :=
    fun j hj =>
      row_has_value_map (fun c i => handle_missing_col_isSome)
        (remove_empty_rows_value t j hj)
  have hw := remove_duplicates_row_value hv
  exact row_has_value_map (fun c i => standardize_col_isSome) (hw k hk)

theorem remove_empty_rows_identity {t : Table} (hwf : t.WF)
    (h : ∀ k, k < t.nrows → row_has_value t k = true) : remove_empty_rows t = t := by
  unfold remove_empty_rows
  rw [List.filter_eq_self.2 fun a ha => h a (List.mem_range.1 ha)]
  exact reindex_range_self hwf

theorem handle_fixed_of_all_some {c : Col} (h : ∀ x ∈ c.cells, x.isSome) :
    handle_missing_col c = c := by
  unfold handle_missing_col
  rw [if_pos (col_missing_count_eq_zero.2 h)]

theorem mem_select_cells_of_bounds {idxs : List ℕ} {c : Col} {x : Cell}
    (hb : ∀ i ∈ idxs, i < c.cells.length) (h : x ∈ (select_col idxs c).cells) :
    x ∈ c.cells := by
  simp only [select_col] at h
  obtain ⟨i, hi, rfl⟩ := List.mem_map.1 h
  rw [cell_at, List.getD_eq_getElem _ _ (hb i hi)]
  exact List.getElem_mem (hb i hi)

theorem select_all_some {idxs : List ℕ} {c : Col}
    (hb : ∀ i ∈ idxs, i < c.cells.length) (h : ∀ x ∈ c.cells, x.isSome) :
    ∀ x ∈ (select_col idxs c).cells, x.isSome :=
  fun x hx => h x (mem_select_cells_of_bounds hb hx)

theorem mean_q_eq_none {qs : List ℚ} : mean_q qs = none ↔ qs = [] := by
  unfold mean_q
  split
  · rename_i h
    simp [List.isEmpty_iff.1 h]
  · rename_i h
    have hne : qs ≠ [] := by
      intro he
      rw [he] at h
      simp at h
    simp [hne]

theorem median_date_eq_none {ds : List ℤ} : median_date ds = none ↔ ds = [] := by
  unfold median_date
  dsimp only
  rw [List.length_insertionSort]
  split
  · rename_i h
    simp [List.length_eq_zero.1 h]
  · rename_i h
    have hne : ds ≠ [] := fun he => h (by simp [he])
    split <;> simp [hne]

theorem num_vals_select_nil {c : Col} (idxs : List ℕ) (h : num_vals c = []) :
    num_vals (select_col idxs c) = [] := by
  apply List.filterMap_eq_nil_iff.2
  intro x hx
  rcases mem_select_cells hx with rfl | hmem
  · rfl
  · exact List.filterMap_eq_nil_iff.1 h x hmem

theorem date_vals_select_nil {c : Col} (idxs : List ℕ) (h : date_vals c = []) :
    date_vals (select_col idxs c) = [] := by
  apply List.filterMap_eq_nil_iff.2
  intro x hx
  rcases mem_select_cells hx with rfl | hmem
  · rfl
  · exact List.filterMap_eq_nil_iff.1 h x hmem

theorem handle_fixed_of_num_empty {c : Col} (hd : c.dtype = Dtype.num)
    (hnv : num_vals c = []) : handle_missing_col c = c := by
  unfold handle_missing_col
  split
  · rfl
  · rw [hd]
    dsimp only
    rw [hnv]
    simp [mean_q]

theorem handle_fixed_of_date_empty {c : Col} (hd : c.dtype = Dtype.date)
    (hnv : date_vals c = []) : handle_missing_col c = c := by
  unfold handle_missing_col
  split
  · rfl
  · rw [hd]
    dsimp only
    rw [hnv]
    simp [median_date]

theorem handle_missing_col_of_zero {c : Col} (hm : col_missing_count c = 0) :
    handle_missing_col c = c := by
  unfold handle_missing_col
  rw [if_pos hm]

theorem handle_missing_col_num_fill {c : Col} (hm : ¬col_missing_count c = 0)
    (hd : c.dtype = Dtype.num) {m : ℚ} (hmean : mean_q (num_vals c) = some m) :
    handle_missing_col c = { c with cells := fill_with (Val.vnum m) c.cells } := by
  unfold handle_missing_col
  rw [if_neg hm, hd]
  dsimp only
  rw [hmean]

theorem handle_missing_col_date_fill {c : Col} (hm : ¬col_missing_count c = 0)
    (hd : c.dtype = Dtype.date) {m : ℤ} (hmed : median_date (date_vals c) = some m) :
    handle_missing_col c = { c with cells := fill_with (Val.vdate m) c.cells } := by
  unfold handle_missing_col
  rw [if_neg hm, hd]
  dsimp only
  rw [hmed]

theorem handle_select_handle_fixed (c0 : Col) (idxs : List ℕ)
    (hb : ∀ i ∈ idxs, i < c0.cells.length) (hd : c0.dtype ≠ Dtype.obj) :
    handle_missing_col (select_col idxs (handle_missing_col c0)) =
      select_col idxs (handle_missing_col c0) := by
  by_cases hm : col_missing_count c0 = 0
  · rw [handle_missing_col_of_zero hm]
    exact handle_fixed_of_all_some (select_all_some hb (col_missing_count_eq_zero.1 hm))
  · rcases hdt : c0.dtype with - | - | -
    · rcases hmean : mean_q (num_vals c0) with - | m
      · rw [handle_fixed_of_num_empty hdt (mean_q_eq_none.1 hmean)]
        exact handle_fixed_of_num_empty (by rw [select_dtype]; exact hdt)
          (num_vals_select_nil idxs (mean_q_eq_none.1 hmean))
      · rw [handle_missing_col_num_fill hm hdt hmean]
        apply handle_fixed_of_all_some
        apply select_all_some
        · intro i hi
          simpa [fill_with] using hb i hi
        · exact fill_with_all_some _ _
    · exact absurd hdt hd
    · rcases hmed : median_date (date_vals c0) with - | m
      · rw [handle_fixed_of_date_empty hdt (median_date_eq_none.1 hmed)]
        exact handle_fixed_of_date_empty (by rw [select_dtype]; exact hdt)
          (date_vals_select_nil idxs (median_date_eq_none.1 hmed))
      · rw [handle_missing_col_date_fill hm hdt hmed]
        apply handle_fixed_of_all_some
        apply select_all_some
        · intro i hi
          simpa [fill_with] using hb i hi
        · exact fill_with_all_some _ _

theorem select_col_range_self (c : Col) :
    select_col (List.range c.cells.length) c = c := by
  have hcell : (List.range c.cells.length).map (cell_at c) = c.cells := by
    apply List.ext_getElem (by simp)
    intro n h1 h2
    simp only [List.getElem_map, List.getElem_range, cell_at]
    exact List.getD_eq_getElem _ _ h2
  simp [select_col, hcell]

theorem handle_missing_col_idem_non_obj {c : Col} (hd : c.dtype ≠ Dtype.obj) :
    handle_missing_col (handle_missing_col c) = handle_missing_col c := by
  have hk := handle_select_handle_fixed c (List.range c.cells.length)
    (fun i hi => List.mem_range.1 hi) hd
  have hsel : select_col (List.range c.cells.length) (handle_missing_col c) =
      handle_missing_col c := by
    rw [← handle_missing_col_length c]
    exact select_col_range_self _
  rw [hsel] at hk
  exact hk

theorem standardize_obj_all_some {c : Col} (hd : c.dtype = Dtype.obj) :
    ∀ x ∈ (standardize_col c).cells, x.isSome := by
  intro x hx
  unfold standardize_col at hx
  rw [if_pos hd] at hx
  dsimp only at hx
  by_cases he : is_email_column (stripped_cells c) = true
  · rw [if_pos he] at hx
    obtain ⟨s, -, rfl⟩ := List.mem_map.1 hx
    rfl
  · rw [if_neg he] at hx
    by_cases hp : is_phone_column (stripped_cells c) = true
    · rw [if_pos hp] at hx
      obtain ⟨s, -, rfl⟩ := List.mem_map.1 hx
      rfl
    · rw [if_neg hp] at hx
      obtain ⟨s, -, rfl⟩ := List.mem_map.1 hx
      rfl

theorem handle_missing_clean_fixed (t : Table) :
    ∀ c ∈ (clean_data t).cols, handle_missing_col c = c := by
  intro c hc
  obtain ⟨cw, hcw, rfl⟩ := List.mem_map.1 hc
  by_cases hd : cw.dtype = Dtype.obj
  · exact handle_fixed_of_all_some (standardize_obj_all_some hd)
  · rw [standardize_col_non_obj hd]
    revert hcw
    unfold remove_duplicates drop_duplicates
    by_cases hemp : (handle_missing_data (remove_empty_rows t)).cols.isEmpty
    · rw [if_pos hemp]
      intro hcw
      obtain ⟨cu, hcu, rfl⟩ := List.mem_map.1 hcw
      apply handle_missing_col_idem_non_obj
      rwa [handle_missing_col_dtype] at hd
    · rw [if_neg hemp]
      intro hcw
      simp only [reindex] at hcw
      obtain ⟨cv, hcv, rfl⟩ := List.mem_map.1 hcw
      obtain ⟨cu, hcu, rfl⟩ := List.mem_map.1 hcv
      apply handle_select_handle_fixed cu _ ?_ ?_
      · intro i hi
        have hrange : i ∈ List.range (handle_missing_data (remove_empty_rows t)).nrows := by
          simp only [keep_idx] at hi
          exact List.mem_of_mem_filter hi
        have hlt := List.mem_range.1 hrange
        have hlen : cu.cells.length = (remove_empty_rows t).nrows :=
          reindex_WF t _ cu hcu
        rw [hlen]
        exact hlt
      · intro hobj
        apply hd
        rw [select_dtype, handle_missing_col_dtype]
        exact hobj

theorem c6_handle_identity (t : Table) :
    handle_missing_data (clean_data t) = clean_data t := by
  have hmap : (clean_data t).cols.map handle_missing_col = (clean_data t).cols :=
    (List.map_congr_left (handle_missing_clean_fixed t)).trans (List.map_id _)
  unfold handle_missing_data
  rw [hmap]

theorem c6_empty_identity (t : Table) :
    remove_empty_rows (clean_data t) = clean_data t :=
  remove_empty_rows_identity (clean_data_WF t) (clean_data_row_value t)

/-! ## Claim C6 -/

/-- Claim C6, counterexample: cleaning is not idempotent.  Two rows that
differ only by leading whitespace survive deduplication (which runs before
format standardization), are made equal by the stripping, and the second
clean then removes one of them. -/
theorem c6_clean_not_idempotent :
    clean_data (clean_data c6_table) ≠ clean_data c6_table := by decide

/-- Claim C6, amended: a second run of `clean_data` removes no empty rows
and fills no values --- those two stages are identities on any cleaned
table --- so it reduces to re-deduplicating and re-standardizing the first
output.  It is not the identity: deduplication runs before format
standardization, so the first run can emit duplicate rows (and values whose
column is newly detected as phone/email-like), which the second run then
removes or rewrites. -/
theorem c6_second_clean_only_dedups_and_restandardizes (t : Table) :
    clean_data (clean_data t) = standardize_formats (remove_duplicates (clean_data t)) ∧
      remove_empty_rows (clean_data t) = clean_data t ∧
      handle_missing_data (clean_data t) = clean_data t := by
  refine ⟨?_, c6_empty_identity t, c6_handle_identity t⟩
  show standardize_formats (remove_duplicates (handle_missing_data
      (remove_empty_rows (clean_data t)))) = _
  rw [c6_empty_identity t, c6_handle_identity t]
